import Mathlib

/-!
Verification of the VideoForge repository (`process_mkv.py`, `hevc_stitcher.py`).

The Python sources are shallowly embedded: Python strings become `List Char`,
Python string operations (`split`, `strip`, `rstrip`, `in`, `endswith`,
`os.path.basename`, `os.path.splitext`) become executable Lean functions with
the same semantics, fallible operations (list indexing that can raise
`IndexError`) return `Option`/`Except`, and the stateful command pipelines
become pure functions from an environment (the behavior of the external
tools `mkvmerge`/`mkvinfo`/`mkvpropedit`/`ffmpeg`/`ffprobe`) to a result
record carrying the executed commands, the printed messages, the final file
contents and the process exit code.
-/

set_option maxRecDepth 20000

namespace VideoForge

abbrev Str := List Char

/-- Python `str` whitespace for `str.strip()`. -/
def isPySpace (c : Char) : Bool :=
  c = ' ' || c = '\t' || c = '\n' || c = '\r' || c = '\x0b' || c = '\x0c'

/-- `isPre n h`: `n` is a leading segment of `h` (used to model where a
Python substring search succeeds at the current position). -/
def isPre : Str → Str → Bool
  | [], _ => true
  | _ :: _, [] => false
  | a :: as, b :: bs => a == b && isPre as bs

/-- Python `needle in hay` substring containment. -/
def hasSub (n : Str) (h : Str) : Bool :=
  match h with
  | [] => n.isEmpty
  | _ :: t => isPre n h || hasSub n t

/-- Worker for `pySplit`: scans the input, emitting a piece whenever the
separator `c0 :: tl` occurs (leftmost, non-overlapping), as Python
`str.split(sep)` does.  The `Nat` is recursion fuel: one unit per scanned
character suffices, and `pySplit` supplies the input length, so the
fuel-exhausted branch is never reached from `pySplit`. -/
def splitAux (c0 : Char) (tl : Str) : Nat → Str → Str → List Str
  | _, [], acc => [acc.reverse]
  | 0, _ :: _, acc => [acc.reverse]
  | fuel + 1, c :: rest, acc =>
    if isPre (c0 :: tl) (c :: rest) then
      acc.reverse :: splitAux c0 tl fuel (rest.drop tl.length) []
    else
      splitAux c0 tl fuel rest (c :: acc)

/-- `splitAux` with the fuel it actually needs. -/
def splitRun (c0 : Char) (tl l acc : Str) : List Str :=
  splitAux c0 tl l.length l acc

/-- Python `s.split(sep)` for a non-empty separator (Python raises on an
empty separator; all separators in the sources are non-empty literals). -/
def pySplit (sep : Str) (s : Str) : List Str :=
  match sep with
  | [] => [s]
  | c0 :: tl => splitRun c0 tl s []

/-- Python `s.strip()`. -/
def pyStrip (s : Str) : Str :=
  ((s.dropWhile isPySpace).reverse.dropWhile isPySpace).reverse

/-- Python `s.rstrip(')')`: removes every trailing `')'`. -/
def pyRstripParen (s : Str) : Str :=
  (s.reverse.dropWhile (fun c => c == ')')).reverse

/-- Python `s.endswith(suffix)`. -/
def pyEndsWith (suffix s : Str) : Bool :=
  isPre suffix.reverse s.reverse

/-- Python `','.join(parts)`. -/
def pyJoinComma : List Str → Str
  | [] => []
  | [p] => p
  | p :: ps => p ++ ',' :: pyJoinComma ps

/-- Python `os.path.basename` (POSIX): the part after the last `'/'`. -/
def py_basename (s : Str) : Str :=
  (s.reverse.takeWhile (fun c => c != '/')).reverse

/-- The root part of Python `os.path.splitext`: everything before the last
`'.'`, except that a leading run of dots in the name never starts an
extension. -/
def py_splitext_root (s : Str) : Str :=
  let extLen := (s.reverse.takeWhile (fun c => c != '.')).length
  if extLen = s.length then s
  else
    let root := s.take (s.length - extLen - 1)
    if root.all (fun c => c == '.') then s else root

/-! ### The track data model (`process_mkv.py`, class `Track`) -/

structure Track where
  track_id : Str
  type : Str
  language : Str
  codec : Str
  deriving DecidableEq, Repr

/-- The accumulator `current_track` of `parse_tracks`. -/
structure CurTrack where
  track_id : Str
  track_type : Str
  language : Str
  codec : Str
  deriving DecidableEq, Repr

def CurTrack.toTrack (c : CurTrack) : Track :=
  ⟨c.track_id, c.track_type, c.language, c.codec⟩

/-- `current_track = {'track_id': '', 'track_type': '', 'language': 'undefined', 'codec': ''}` -/
def initCur : CurTrack :=
  ⟨[], [], "undefined".data, []⟩

def numMarker : Str := "|  + Track number:".data
def typeMarker : Str := "|  + Track type:".data
def codecMarker : Str := "|  + Codec ID:".data
def langMarker : Str := "|  + Language:".data
def ietfMarker : Str := "IETF".data
def extractMarker : Str := "mkvextract:".data
def titleMarker : Str := "|  + Title:".data

/-- One loop iteration of `parse_tracks` (`process_mkv.py` lines 50-64); the
`Except` models the `IndexError` that Python raises on
`line.split('mkvextract:')[1]` when the qualifier is absent. -/
def parseLine (st : List Track × CurTrack) (rawLine : Str) :
    Except Unit (List Track × CurTrack) :=
  let line := pyStrip rawLine
  let tracks := st.1
  let cur := st.2
  if hasSub numMarker line then
    let tracks := if cur.track_id ≠ [] then tracks ++ [cur.toTrack] else tracks
    let cur := if cur.track_id ≠ [] then initCur else cur
    match (pySplit extractMarker line).get? 1 with
    | none => .error ()
    | some part => .ok (tracks, { cur with track_id := pyRstripParen (pyStrip part) })
  else if hasSub typeMarker line then
    match (pySplit [':'] line).get? 1 with
    | none => .error ()
    | some v => .ok (tracks, { cur with track_type := pyStrip v })
  else if hasSub codecMarker line then
    match (pySplit [':'] line).get? 1 with
    | none => .error ()
    | some v => .ok (tracks, { cur with codec := pyStrip v })
  else if hasSub langMarker line && !hasSub ietfMarker line then
    match (pySplit [':'] line).get? 1 with
    | none => .error ()
    | some v => .ok (tracks, { cur with language := pyStrip v })
  else
    .ok (tracks, cur)

/-- `parse_tracks` (`process_mkv.py` lines 43-69), as a function of the
`mkvinfo` standard output text. -/
def parse_tracks (stdout : Str) : Except Unit (List Track) := do
  let lines := pySplit ['\n'] stdout
  let (tracks, cur) ← lines.foldlM parseLine ([], initCur)
  if cur.track_id ≠ [] then
    return tracks ++ [cur.toTrack]
  else
    return tracks

instance exceptDecidableEq {ε α : Type} [DecidableEq ε] [DecidableEq α] :
    DecidableEq (Except ε α) := fun a b =>
  match a, b with
  | .error x, .error y =>
    if h : x = y then .isTrue (by rw [h]) else .isFalse (fun hc => h (Except.error.inj hc))
  | .ok x, .ok y =>
    if h : x = y then .isTrue (by rw [h]) else .isFalse (fun hc => h (Except.ok.inj hc))
  | .error _, .ok _ => .isFalse (fun hc => Except.noConfusion hc)
  | .ok _, .error _ => .isFalse (fun hc => Except.noConfusion hc)

/-! ### The `process_mkv.py` pipeline model

The pipeline orchestrates external tools.  The behavior of those tools for
the one file being processed is an `Env`; the pipeline itself is a pure
function from `Env` to a result carrying the executed commands, the printed
messages, the final file bytes and the exit status. -/

/-- External commands the pipeline can issue. -/
inductive Cmd where
  | mkvinfo (file : Str)
  | mkvmerge_audio (temp : Str) (audio_ids : Str) (file : Str)
  | mkvmerge_nosubs (temp : Str) (file : Str)
  | mkvpropedit_title (file : Str) (title : Str)
  deriving DecidableEq, Repr

/-- `mkvinfo` only reads; the other commands mutate media files. -/
def Cmd.isMutation : Cmd → Bool
  | .mkvinfo _ => false
  | _ => true

/-- One constructor per `print` site of `process_mkv.py` (plus the two-line
diagnostic of `run_command` on a failing command, and the messages printed
by `main` before processing starts). -/
inductive Msg where
  | fileNotFound | tracksHeader | sepLine | trackLine (t : Track)
  | analyzing
  | foundKeep (id : Str) | foundRemove (id : Str)
  | warnNoTarget | wouldKeepOnly | keptOnly | suspiciousAborted | noAudioChanges
  | noSubtitles | subtitlesFound | wouldRemoveSubs | subtitlesRemoved
  | wouldSetTitle (title : Str) | setTitleMsg (title : Str) | titleMatches
  | blank
  | runCommandError
  | toolMissing
  | notMkv
  deriving DecidableEq, Repr

/-- Behavior of the external tools and of the filesystem for one run.
File bytes are modeled as `List Nat`; `os.path.getsize` is the length. -/
structure Env where
  tools_ok : Bool
  file_exists : Bool
  /-- stdout of `mkvinfo file` for the track listing. -/
  info_out : Str
  merge_ok : Bool
  /-- bytes `mkvmerge` writes to the audio-filter temp file. -/
  remux_content : List Nat
  nosubs_ok : Bool
  /-- bytes `mkvmerge --no-subtitles` writes to its temp file. -/
  nosubs_content : List Nat
  /-- stdout of the second `mkvinfo file` call (title probe). -/
  title_info_out : Str
  propedit_ok : Bool
  /-- bytes of the file after `mkvpropedit --set title=...`. -/
  propedit_content : List Nat
  deriving Repr

/-- The command-line options of `process_mkv.py`. -/
structure Opts where
  keep_language : Option Str
  delete_subtitles : Bool
  dry_run : Bool
  deriving DecidableEq, Repr

/-- Observable run state: bytes at the original path, bytes at the
audio-filter temp path (if that file currently exists), executed commands,
printed messages. -/
structure St where
  content : List Nat
  temp : Option (List Nat)
  cmds : List Cmd
  log : List Msg
  deriving DecidableEq, Repr

def St.say (st : St) (m : Msg) : St := { st with log := st.log ++ [m] }

def St.sayAll (st : St) (ms : List Msg) : St := { st with log := st.log ++ ms }

def St.runCmd (st : St) (c : Cmd) : St := { st with cmds := st.cmds ++ [c] }

/-- The post-remux size check `new_size > original_size / 2`
(`process_mkv.py` line 116).  Python compares `new_size` against the float
`original_size / 2`; for any realistic file size (below 2^53 bytes, where
doubles are exact) that equals the exact comparison
`original_size < 2 * new_size`, which is how the check is embedded;
`size_gate_iff` relates it to the rational half. -/
def size_gate (original_size new_size : Nat) : Bool :=
  decide (original_size < 2 * new_size)

/-- The audio-language filter (`process_mkv.py` lines 86-124), for
`keep_language = some keep`. -/
def audio_step (env : Env) (dry_run : Bool) (keep_language : Str)
    (tracks : List Track) (file : Str) (st : St) : St × Option Nat :=
  let st := st.say .analyzing
  let audio_tracks := tracks.filter (fun t => t.type = "audio".data)
  let target_tracks := audio_tracks.filter (fun t => t.language = keep_language)
  let non_target_tracks := audio_tracks.filter (fun t => t.language ≠ keep_language)
  let st := st.sayAll (target_tracks.map (fun t => .foundKeep t.track_id))
  let st := st.sayAll (non_target_tracks.map (fun t => .foundRemove t.track_id))
  if non_target_tracks ≠ [] then
    if target_tracks = [] then
      (st.say .warnNoTarget, none)
    else if dry_run then
      (st.say .wouldKeepOnly, none)
    else
      let temp_file := py_splitext_root file ++ '_' :: keep_language ++ ".mkv".data
      let audio_track_ids := pyJoinComma (target_tracks.map Track.track_id)
      let st := st.runCmd (.mkvmerge_audio temp_file audio_track_ids file)
      if ¬ env.merge_ok then (st.say .runCommandError, some 1)
      else
        let st := { st with temp := some env.remux_content }
        let original_size := st.content.length
        let new_size := env.remux_content.length
        if size_gate original_size new_size then
          ({ st with content := env.remux_content, temp := none }.say .keptOnly, none)
        else
          (({ st.say .suspiciousAborted with temp := none }), some 1)
  else
    (st.say .noAudioChanges, none)

/-- The subtitle stripper (`process_mkv.py` lines 127-139). -/
def subtitle_step (env : Env) (dry_run : Bool) (tracks : List Track)
    (file : Str) (st : St) : St × Option Nat :=
  let subtitle_tracks := tracks.filter (fun t => t.type = "subtitles".data)
  if subtitle_tracks = [] then (st.say .noSubtitles, none)
  else
    let st := st.say .subtitlesFound
    if dry_run then (st.say .wouldRemoveSubs, none)
    else
      let temp_file := py_splitext_root file ++ "_no_subtitles.mkv".data
      let st := st.runCmd (.mkvmerge_nosubs temp_file file)
      if ¬ env.nosubs_ok then (st.say .runCommandError, some 1)
      else ({ st with content := env.nosubs_content }.say .subtitlesRemoved, none)

/-- The title probe over the `mkvinfo` output lines
(`process_mkv.py` lines 144-148: first line containing the title marker;
note the raw line is not stripped there, only the extracted value is). -/
def probe_title_lines : List Str → Option Str
  | [] => none
  | l :: ls =>
    if hasSub titleMarker l then ((pySplit [':'] l).get? 1).map pyStrip
    else probe_title_lines ls

def probe_title (stdout : Str) : Option Str :=
  probe_title_lines (pySplit ['\n'] stdout)

/-- The title normalizer (`process_mkv.py` lines 141-157). -/
def title_step (env : Env) (dry_run : Bool) (file : Str) (st : St) :
    St × Option Nat :=
  let title := py_splitext_root (py_basename file)
  let st := st.runCmd (.mkvinfo file)
  let current_title := probe_title env.title_info_out
  if current_title ≠ some title then
    if dry_run then (st.say (.wouldSetTitle title), none)
    else
      let st := st.runCmd (.mkvpropedit_title file title)
      if ¬ env.propedit_ok then (st.say .runCommandError, some 1)
      else ({ st with content := env.propedit_content }.say (.setTitleMsg title), none)
  else (st.say .titleMatches, none)

/-- The sequence of conditional mutation steps of `process_mkv_file`
(audio filter, then subtitle stripper, then title normalizer, then the
final blank line), with the early exits of each step propagated. -/
def pipeline_steps (env : Env) (opts : Opts) (tracks : List Track)
    (file : Str) (st : St) : St × Option Nat :=
  let p :=
    match opts.keep_language with
    | some keep => audio_step env opts.dry_run keep tracks file st
    | none => (st, none)
  match p.2 with
  | some code => (p.1, some code)
  | none =>
    let q :=
      if opts.delete_subtitles then subtitle_step env opts.dry_run tracks file p.1
      else (p.1, none)
    match q.2 with
    | some code => (q.1, some code)
    | none =>
      let r := title_step env opts.dry_run file q.1
      match r.2 with
      | some code => (r.1, some code)
      | none => (r.1.say .blank, none)

/-- `process_mkv_file` (`process_mkv.py` lines 71-159).  The second
component is `some code` when the run terminated through `sys.exit code`
(or an uncaught exception), `none` when the function returned normally. -/
def process_mkv_file (env : Env) (opts : Opts) (file : Str)
    (content0 : List Nat) : St × Option Nat :=
  let st : St := ⟨content0, none, [], []⟩
  if ¬ env.file_exists then (st.say .fileNotFound, none)
  else
    let st := (st.say .tracksHeader).say .sepLine
    let st := st.runCmd (.mkvinfo file)
    match parse_tracks env.info_out with
    | .error _ => (st, some 1)
    | .ok tracks =>
      let st := st.sayAll (tracks.map (fun t => .trackLine t))
      let st := st.say .sepLine
      pipeline_steps env opts tracks file st

/-- `main` (`process_mkv.py` lines 161-180), returning the final state and
the process exit code.  `fileArg = none` models an omitted positional
argument; Python's `if not args.file:` is truthiness, so an empty string
also prints help and exits 0. -/
def main_run (env : Env) (opts : Opts) (fileArg : Option Str)
    (content0 : List Nat) : St × Nat :=
  let st0 : St := ⟨content0, none, [], []⟩
  match fileArg with
  | none => (st0, 0)
  | some file =>
    if file = [] then (st0, 0)
    else if ¬ env.tools_ok then (st0.say .toolMissing, 1)
    else if ¬ pyEndsWith ".mkv".data file then (st0.say .notMkv, 1)
    else
      let (st, e) := process_mkv_file env opts file content0
      (st, e.getD 0)

/-! ### Title idempotence model (claim C7)

The title normalizer compares the probed embedded title with the filename
without extension and mutates when they differ.  The probe and the
comparison are the repository's code (`probe_title` above); what the
external tools do is modelled from the spec. -/

/-- Modelled from the spec: the info tool's rendering of the embedded
title, `"|  + Title: " ++ t`, the first matching marker line of its output
(the info tool `mkvinfo` itself is external to the repository); an absent
title produces no marker line. -/
def render_title_info : Option Str → Str
  | none => []
  | some t => titleMarker ++ ' ' :: t

/-- One run of the title-normalizer step over the embedded-title state:
probe the title (repository code) and, when it differs from the expected
title, set it.  That the metadata-edit tool stores exactly the requested
string is modelled from the spec (`mkvpropedit` is external to the
repository).  Returns the new embedded title and whether a mutation was
performed. -/
def title_run (expected : Str) (embedded : Option Str) : Option Str × Bool :=
  let current_title := probe_title (render_title_info embedded)
  if current_title ≠ some expected then (some expected, true) else (embedded, false)

/-! ### The `hevc_stitcher.py` model -/

def pyLower (s : Str) : Str := s.map Char.toLower

/-- `is_video_file` (`hevc_stitcher.py` lines 172-182). -/
def is_video_file (filename : Str) : Bool :=
  pyEndsWith ".mov".data (pyLower filename) || pyEndsWith ".mp4".data (pyLower filename)

/-- `get_resolution_and_fps` (`hevc_stitcher.py` lines 29-51); the `Except`
models the `ValueError` raised for an unknown preset. -/
def get_resolution_and_fps (resolution : Str) (fps : Nat) :
    Except Str (Nat × Nat × Nat) :=
  if resolution = "480p".data then .ok (640, 360, fps)
  else if resolution = "720p".data then .ok (1280, 720, fps)
  else if resolution = "1080p".data then .ok (1920, 1080, fps)
  else if resolution = "4K".data then .ok (3840, 2160, fps)
  else .error ("Invalid resolution: ".data ++ resolution)

/-- A directory entry as the stitcher's probes see it: name, probed video
dimensions, and filesystem modification time. -/
structure SFile where
  name : Str
  width : Nat
  height : Nat
  mtime : Nat
  deriving DecidableEq, Repr

/-- One constructor per print site of `concatenate_and_encode` relevant to
control flow. -/
inductive SMsg where
  | errorTools | targetSettings | analysisShown
  | errorMismatch (files : List (Str × Nat × Nat))
  | errorNoFiles | filesListed | commandPrinted | dryRunMsg
  | encodeSuccess | encodeError
  deriving DecidableEq, Repr

/-- Lexicographic comparison of strings by code point (Python `str` `<=`). -/
def lexLe : Str → Str → Bool
  | [], _ => true
  | _ :: _, [] => false
  | a :: as, b :: bs =>
    if a.val < b.val then true
    else if b.val < a.val then false
    else lexLe as bs

def insertLe (le : α → α → Bool) (x : α) : List α → List α
  | [] => [x]
  | y :: ys => if le x y then x :: y :: ys else y :: insertLe le x ys

/-- Stable insertion sort (Python `sorted` is stable). -/
def insSort (le : α → α → Bool) : List α → List α
  | [] => []
  | x :: xs => insertLe le x (insSort le xs)

/-- `verify_resolutions` (`hevc_stitcher.py` lines 223-257): the mismatched
files among the video files of the (name-sorted) listing. -/
def verify_resolutions (listing : List SFile) (target_width target_height : Nat) :
    List (Str × Nat × Nat) :=
  ((insSort (fun a b => lexLe a.name b.name) listing).filter
      (fun f => is_video_file f.name)).filterMap
    (fun f =>
      if f.width ≠ target_width ∨ f.height ≠ target_height then
        some (f.name, f.width, f.height)
      else none)

inductive SortBy where
  | filename | creation_date
  deriving DecidableEq, Repr

/-- `get_sorted_video_files` (`hevc_stitcher.py` lines 185-220). -/
def get_sorted_video_files (listing : List SFile) (sort_by : SortBy) : List SFile :=
  let video_files := listing.filter (fun f => is_video_file f.name)
  match sort_by with
  | .filename => insSort (fun a b => lexLe a.name b.name) video_files
  | .creation_date => insSort (fun a b => a.mtime ≤ b.mtime) video_files

/-- External-tool behavior for one stitcher run. -/
structure SEnv where
  tools_ok : Bool
  listing : List SFile
  encode_ok : Bool
  deriving Repr

/-- Result of one stitcher run: process exit code, message trace, and
whether the ffmpeg encode command was executed. -/
structure SRes where
  exit : Nat
  log : List SMsg
  ran_ffmpeg : Bool
  deriving DecidableEq, Repr

/-- `concatenate_and_encode` (`hevc_stitcher.py` lines 260-372).  An
invalid preset raises an uncaught `ValueError` (exit code 1); a failing
ffmpeg command is caught and only reported (the function then returns
normally, so the process exits 0). -/
def concatenate_and_encode (env : SEnv) (resolution : Str) (fps : Nat)
    (sort_by : SortBy) (dry_run : Bool) : SRes :=
  if ¬ env.tools_ok then ⟨1, [.errorTools], false⟩
  else
    match get_resolution_and_fps resolution fps with
    | .error _ => ⟨1, [], false⟩
    | .ok (target_width, target_height, _) =>
      let log := [SMsg.targetSettings, .analysisShown]
      let mismatched := verify_resolutions env.listing target_width target_height
      if mismatched ≠ [] then ⟨1, log ++ [.errorMismatch mismatched], false⟩
      else
        let video_files := get_sorted_video_files env.listing sort_by
        if video_files = [] then ⟨1, log ++ [.errorNoFiles], false⟩
        else
          let log := log ++ [SMsg.filesListed, .commandPrinted]
          if dry_run then ⟨0, log ++ [.dryRunMsg], false⟩
          else if env.encode_ok then ⟨0, log ++ [.encodeSuccess], true⟩
          else ⟨0, log ++ [.encodeError], true⟩

/-! ### Well-formed track blocks and their rendering

For the parser claims, well-formed `mkvinfo` track blocks are rendered to
text and fed to `parse_tracks`.  The value alphabets are restricted exactly
as far as is needed for a block to be well formed: a field value must not
contain the characters that the line format itself uses (`':'`, `'|'`,
newline), must not begin or end with whitespace (the format puts the value
flush after `": "`), ids and track numbers are decimal digit strings, and a
language value must not contain the `IETF` qualifier. -/

def digitChars : Str := "0123456789".data

/-- A non-empty decimal digit string (track numbers and track ids). -/
def goodDigits (v : Str) : Bool :=
  !v.isEmpty && v.all (fun c => c ∈ digitChars)

/-- First and last characters exist and are not Python whitespace. -/
def cleanEnds (v : Str) : Bool :=
  match v.head?, v.getLast? with
  | some a, some b => !isPySpace a && !isPySpace b
  | _, _ => false

/-- A well-formed field value (track type, codec, language). -/
def goodVal (v : Str) : Bool :=
  cleanEnds v && v.all (fun c => c ≠ ':' && c ≠ '|' && c ≠ '\n')

/-- Constraints on the tail `v2` of a value `v1 ++ ':' :: v2` that itself
contains a colon (claim C6): it may contain further colons, but not the
line-structure characters, and the line must not end in whitespace. -/
def tailOk (v : Str) : Bool :=
  (match v.getLast? with | some b => !isPySpace b | none => false) &&
  v.all (fun c => c ≠ '|' && c ≠ '\n')

def numLine (num id : Str) : Str :=
  "|  + Track number: ".data ++
    (num ++ (" (track ID for mkvmerge & ".data ++ (extractMarker ++ (' ' :: (id ++ [')'])))))

def typeLine (v : Str) : Str := "|  + Track type".data ++ ':' :: ' ' :: v

def codecLine (v : Str) : Str := "|  + Codec ID".data ++ ':' :: ' ' :: v

def langLine (v : Str) : Str := "|  + Language".data ++ ':' :: ' ' :: v

def ietfLine (v : Str) : Str := "|  + Language (IETF)".data ++ ':' :: ' ' :: v

def titleLine (v : Str) : Str := "|  + Title".data ++ ':' :: ' ' :: v

/-- One well-formed track block of `mkvinfo` output: internal track
number, tool-facing id, type, codec, optional language line, optional
IETF-qualified language line. -/
structure RawBlock where
  num : Str
  id : Str
  ty : Str
  codec : Str
  lang : Option Str
  ietf : Option Str
  deriving DecidableEq, Repr

def wfBlock (b : RawBlock) : Bool :=
  goodDigits b.num && goodDigits b.id && goodVal b.ty && goodVal b.codec &&
  (match b.lang with
   | none => true
   | some v => goodVal v && !hasSub ietfMarker v) &&
  (match b.ietf with
   | none => true
   | some v => goodVal v)

def blockLines (b : RawBlock) : List Str :=
  [numLine b.num b.id, typeLine b.ty, codecLine b.codec] ++
    ((match b.lang with | none => [] | some v => [langLine v]) ++
     (match b.ietf with | none => [] | some v => [ietfLine v]))

/-- The `Track` a well-formed block describes. -/
def blockTrack (b : RawBlock) : Track :=
  ⟨b.id, b.ty, (match b.lang with | none => "undefined".data | some v => v), b.codec⟩

/-- The parser state after the lines of block `b` (before the next
track-number marker finalizes it). -/
def curOf (b : RawBlock) : CurTrack :=
  ⟨b.id, b.ty, (match b.lang with | none => "undefined".data | some v => v), b.codec⟩

/-- Appending the in-progress record when its id is non-empty
(`parse_tracks` lines 53-54 and 66-67). -/
def finalized (tracks : List Track) (cur : CurTrack) : List Track :=
  if cur.track_id ≠ [] then tracks ++ [cur.toTrack] else tracks

/-- The parser state (tracks, in-progress record) after a list of
well-formed blocks. -/
def parseBlocksEnd (tracks : List Track) (cur : CurTrack) :
    List RawBlock → List Track × CurTrack
  | [] => (tracks, cur)
  | b :: bs => parseBlocksEnd (finalized tracks cur) (curOf b) bs

/-- Join lines with `'\n'` (inverse of Python `stdout.split('\n')`). -/
def joinNL : List Str → Str
  | [] => []
  | [l] => l
  | l :: ls => l ++ '\n' :: joinNL ls

/-- `mismatchWithin n s = true` iff matching `n` against the text starting
with `s` fails at a position inside `s` — so `n` cannot match there no
matter what follows `s`. -/
def mismatchWithin : Str → Str → Bool
  | [], _ => false
  | _ :: _, [] => false
  | a :: as, b :: bs => a != b || mismatchWithin as bs

/-- `n` fails to match (within the given text) at every start position in
`conc`. -/
def allPosMismatch (n : Str) (s : Str) : Bool :=
  match s with
  | [] => true
  | _ :: t => mismatchWithin n s && allPosMismatch n t

/-- The dry-run phrasing of each performed-mutation message; identity on
every other message. -/
def toIntent : Msg → Msg
  | .keptOnly => .wouldKeepOnly
  | .subtitlesRemoved => .wouldRemoveSubs
  | .setTitleMsg t => .wouldSetTitle t
  | m => m

/-- The dry-run phrasing of the stitcher's successful-encode message. -/
def sToIntent : SMsg → SMsg
  | .encodeSuccess => .dryRunMsg
  | m => m

/-! ### Lemmas about the Python string models -/

theorem isPre_append_right {n s : Str} (v : Str) (h : isPre n s = true) :
    isPre n (s ++ v) = true := by
  induction n generalizing s with
  | nil => simp [isPre]
  | cons a as ih =>
    cases s with
    | nil => simp [isPre] at h
    | cons b bs =>
      simp only [isPre, Bool.and_eq_true, beq_iff_eq] at h
      simp only [List.cons_append, isPre, Bool.and_eq_true, beq_iff_eq]
      exact ⟨h.1, ih h.2⟩

theorem isPre_self_append (l v : Str) : isPre l (l ++ v) = true := by
  induction l with
  | nil => simp [isPre]
  | cons a as ih => simp [isPre, ih]

theorem isPre_false_of_mismatchWithin {n s : Str} (v : Str)
    (h : mismatchWithin n s = true) : isPre n (s ++ v) = false := by
  induction n generalizing s with
  | nil => simp [mismatchWithin] at h
  | cons a as ih =>
    cases s with
    | nil => simp [mismatchWithin] at h
    | cons b bs =>
      simp only [mismatchWithin, Bool.or_eq_true, bne_iff_ne, ne_eq] at h
      simp only [List.cons_append, isPre, Bool.and_eq_false_iff]
      rcases h with h | h
      · exact Or.inl (by simpa using h)
      · exact Or.inr (ih h)

theorem hasSub_append_left {n : Str} (a v : Str) (h : hasSub n a = true) :
    hasSub n (a ++ v) = true := by
  induction a with
  | nil =>
    simp only [hasSub, List.isEmpty_iff] at h
    subst h
    cases v with
    | nil => simp [hasSub]
    | cons c t => simp [hasSub, isPre]
  | cons c t ih =>
    simp only [hasSub, Bool.or_eq_true] at h
    simp only [List.cons_append, hasSub, Bool.or_eq_true]
    rcases h with h | h
    · exact Or.inl (by simpa using isPre_append_right (s := c :: t) v h)
    · exact Or.inr (ih h)

theorem hasSub_append_concFalse {n : Str} (conc v : Str)
    (hc : allPosMismatch n conc = true) (hv : hasSub n v = false) :
    hasSub n (conc ++ v) = false := by
  induction conc with
  | nil => simpa using hv
  | cons c t ih =>
    simp only [allPosMismatch, Bool.and_eq_true] at hc
    simp only [List.cons_append, hasSub, Bool.or_eq_false_iff]
    refine ⟨?_, ih hc.2⟩
    simpa using isPre_false_of_mismatchWithin (s := c :: t) v hc.1

theorem hasSub_false_of_head_notMem {c : Char} {cs v : Str} (h : c ∉ v) :
    hasSub (c :: cs) v = false := by
  induction v with
  | nil => simp [hasSub]
  | cons x xs ih =>
    simp only [List.mem_cons, not_or] at h
    simp only [hasSub, isPre, Bool.or_eq_false_iff, Bool.and_eq_false_iff]
    exact ⟨Or.inl (by simpa using h.1), ih h.2⟩

theorem isPre_decomp {n h : Str} (hp : isPre n h = true) : ∃ t, h = n ++ t := by
  induction n generalizing h with
  | nil => exact ⟨h, rfl⟩
  | cons a as ih =>
    cases h with
    | nil => simp [isPre] at hp
    | cons b bs =>
      simp only [isPre, Bool.and_eq_true, beq_iff_eq] at hp
      obtain ⟨t, ht⟩ := ih hp.2
      exact ⟨t, by simp [hp.1, ht]⟩

theorem hasSub_decomp {n l : Str} (h : hasSub n l = true) :
    ∃ a b, l = a ++ (n ++ b) := by
  induction l with
  | nil =>
    simp only [hasSub, List.isEmpty_iff] at h
    exact ⟨[], [], by simp [h]⟩
  | cons c t ih =>
    simp only [hasSub, Bool.or_eq_true] at h
    rcases h with h | h
    · obtain ⟨b, hb⟩ := isPre_decomp h
      exact ⟨[], b, by simp [hb]⟩
    · obtain ⟨a, b, hab⟩ := ih h
      exact ⟨c :: a, b, by simp [hab]⟩

theorem mem_of_hasSub {n l : Str} {c : Char} (h : hasSub n l = true)
    (hc : c ∈ n) : c ∈ l := by
  obtain ⟨a, b, rfl⟩ := hasSub_decomp h
  simp [hc]

theorem hasSub_singleton {c : Char} {l : Str} (h : c ∈ l) :
    hasSub [c] l = true := by
  induction l with
  | nil => simp at h
  | cons x xs ih =>
    simp only [hasSub, Bool.or_eq_true]
    rcases List.mem_cons.mp h with rfl | h
    · exact Or.inl (by simp [isPre])
    · exact Or.inr (ih h)

theorem splitAux_fuel_irrel (c0 : Char) (tl : Str) :
    ∀ (m f1 f2 : Nat) (l acc : Str), l.length ≤ f1 → l.length ≤ f2 → l.length ≤ m →
      splitAux c0 tl f1 l acc = splitAux c0 tl f2 l acc := by
  intro m
  induction m with
  | zero =>
    intro f1 f2 l acc _ _ hm
    have hnil : l = [] := by
      cases l with
      | nil => rfl
      | cons c t => simp at hm
    subst hnil
    cases f1 <;> cases f2 <;> rfl
  | succ k ih =>
    intro f1 f2 l acc h1 h2 hm
    cases l with
    | nil => cases f1 <;> cases f2 <;> rfl
    | cons c rest =>
      cases f1 with
      | zero => simp at h1
      | succ g1 =>
        cases f2 with
        | zero => simp at h2
        | succ g2 =>
          simp only [splitAux]
          simp only [List.length_cons, Nat.add_le_add_iff_right] at h1 h2 hm
          by_cases hp : isPre (c0 :: tl) (c :: rest) = true
          · rw [if_pos (by simp [hp]), if_pos (by simp [hp])]
            have hd : (rest.drop tl.length).length ≤ rest.length := by
              simp [List.length_drop]
            exact congrArg _ (ih g1 g2 _ [] (le_trans hd h1) (le_trans hd h2)
              (le_trans hd hm))
          · rw [if_neg (by simp [hp]), if_neg (by simp [hp])]
            exact ih g1 g2 rest (c :: acc) h1 h2 hm

theorem splitRun_cons_hit (c0 : Char) (tl : Str) (c : Char) (rest acc : Str)
    (h : isPre (c0 :: tl) (c :: rest) = true) :
    splitRun c0 tl (c :: rest) acc =
      acc.reverse :: splitRun c0 tl (rest.drop tl.length) [] := by
  show splitAux c0 tl (rest.length + 1) (c :: rest) acc = _
  simp only [splitAux]
  rw [if_pos (by simp [h])]
  refine congrArg _ (splitAux_fuel_irrel c0 tl rest.length _ _ _ [] ?_ ?_ ?_) <;>
    simp [List.length_drop]

theorem splitRun_cons_else (c0 : Char) (tl : Str) (c : Char) (rest acc : Str)
    (h : isPre (c0 :: tl) (c :: rest) = false) :
    splitRun c0 tl (c :: rest) acc = splitRun c0 tl rest (c :: acc) := by
  show splitAux c0 tl (rest.length + 1) (c :: rest) acc = _
  simp only [splitAux]
  rw [if_neg (by simp [h])]
  rfl

theorem splitRun_ne_nil (c0 : Char) (tl l acc : Str) :
    splitRun c0 tl l acc ≠ [] := by
  have key : ∀ (f : Nat) (l acc : Str), splitAux c0 tl f l acc ≠ [] := by
    intro f
    induction f with
    | zero => intro l acc; cases l <;> simp [splitAux]
    | succ k ih =>
      intro l acc
      cases l with
      | nil => simp [splitAux]
      | cons c rest =>
        simp only [splitAux]
        split
        · simp
        · exact ih rest (c :: acc)
  exact key l.length l acc

theorem splitRun_skip (c0 : Char) (tl v r acc : Str)
    (h : ∀ x ∈ v, x ≠ c0) :
    splitRun c0 tl (v ++ r) acc = splitRun c0 tl r (v.reverse ++ acc) := by
  induction v generalizing acc with
  | nil => simp
  | cons x xs ih =>
    have hx : x ≠ c0 := h x (by simp)
    have hbeq : (c0 == x) = false := beq_eq_false_iff_ne.mpr (Ne.symm hx)
    show splitRun c0 tl (x :: (xs ++ r)) acc = _
    rw [splitRun_cons_else c0 tl x _ acc (by simp [isPre, hbeq])]
    rw [ih (x :: acc) (fun y hy => h y (by simp [hy]))]
    simp

theorem splitRun_skip_conc (c0 : Char) (tl conc r acc : Str)
    (h : allPosMismatch (c0 :: tl) conc = true) :
    splitRun c0 tl (conc ++ r) acc = splitRun c0 tl r (conc.reverse ++ acc) := by
  induction conc generalizing acc with
  | nil => simp
  | cons x xs ih =>
    simp only [allPosMismatch, Bool.and_eq_true] at h
    have hpre : isPre (c0 :: tl) (x :: (xs ++ r)) = false := by
      simpa using isPre_false_of_mismatchWithin (s := x :: xs) r h.1
    show splitRun c0 tl (x :: (xs ++ r)) acc = _
    rw [splitRun_cons_else c0 tl x _ acc hpre]
    rw [ih (x :: acc) h.2]
    simp

theorem splitRun_hit (c0 : Char) (tl w acc : Str) :
    splitRun c0 tl ((c0 :: tl) ++ w) acc = acc.reverse :: splitRun c0 tl w [] := by
  show splitRun c0 tl (c0 :: (tl ++ w)) acc = _
  rw [splitRun_cons_hit c0 tl c0 (tl ++ w) acc (by simp [isPre, isPre_self_append])]
  rw [List.drop_left]

theorem splitRun_no_hit (c0 : Char) (tl l acc : Str)
    (h : ∀ x ∈ l, x ≠ c0) : splitRun c0 tl l acc = [acc.reverse ++ l] := by
  have hrun := splitRun_skip c0 tl l [] acc h
  simp only [List.append_nil] at hrun
  rw [hrun]
  show [(l.reverse ++ acc).reverse] = _
  simp

theorem pySplit_single_sep {c : Char} (a b : Str) (h : c ∉ a) :
    pySplit [c] (a ++ c :: b) = a :: pySplit [c] b := by
  show splitRun c [] (a ++ c :: b) [] = _
  rw [splitRun_skip c [] a (c :: b) [] (fun x hx => by rintro rfl; exact h hx)]
  have h2 : c :: b = (c :: ([] : Str)) ++ b := by simp
  rw [h2, splitRun_hit]
  simp [pySplit]

theorem pySplit_single_no {c : Char} (l : Str) (h : c ∉ l) :
    pySplit [c] l = [l] := by
  show splitRun c [] l [] = _
  rw [splitRun_no_hit c [] l [] (fun x hx => by rintro rfl; exact h hx)]
  simp

theorem dropWhile_eq_self_of_head {p : Char → Bool} {l : Str} {a : Char}
    (h1 : l.head? = some a) (h2 : p a = false) : l.dropWhile p = l := by
  cases l with
  | nil => simp at h1
  | cons c t =>
    simp only [List.head?_cons, Option.some_inj] at h1
    subst h1
    simp [List.dropWhile_cons, h2]

theorem pyStrip_eq_self {s : Str} {a b : Char} (h1 : s.head? = some a)
    (h2 : isPySpace a = false) (h3 : s.getLast? = some b)
    (h4 : isPySpace b = false) : pyStrip s = s := by
  unfold pyStrip
  rw [dropWhile_eq_self_of_head h1 h2]
  rw [dropWhile_eq_self_of_head (by rw [List.head?_reverse]; exact h3) h4]
  exact List.reverse_reverse s

theorem pyStrip_cons_space (s : Str) : pyStrip (' ' :: s) = pyStrip s := by
  unfold pyStrip
  have hsp : isPySpace ' ' = true := rfl
  rw [List.dropWhile_cons, if_pos (by simp [hsp])]

theorem dropWhile_replicate_append {p : Char → Bool} {x : Char} (n : Nat)
    (l : Str) (hx : p x = true) :
    (List.replicate n x ++ l).dropWhile p = l.dropWhile p := by
  induction n with
  | zero => simp
  | succ k ih => simp [List.replicate_succ, List.dropWhile_cons, hx, ih]

theorem pyRstripParen_append {v : Str} {d : Char} (n : Nat)
    (h3 : v.getLast? = some d) (h4 : (d == ')') = false) :
    pyRstripParen (v ++ List.replicate n ')') = v := by
  unfold pyRstripParen
  rw [List.reverse_append, List.reverse_replicate]
  rw [dropWhile_replicate_append n v.reverse (by simp)]
  rw [dropWhile_eq_self_of_head (p := fun c => c == ')')
    (by rw [List.head?_reverse]; exact h3) (by simpa using h4)]
  exact List.reverse_reverse v

/-! ### Facts about well-formed values -/

theorem goodVal_facts {v : Str} (h : goodVal v = true) :
    pyStrip (' ' :: v) = v ∧ (∀ c ∈ v, c ≠ ':' ∧ c ≠ '|' ∧ c ≠ '\n') ∧
      ∃ b, v.getLast? = some b ∧ isPySpace b = false := by
  unfold goodVal cleanEnds at h
  rw [Bool.and_eq_true] at h
  obtain ⟨hends, hall⟩ := h
  have hmem : ∀ c ∈ v, c ≠ ':' ∧ c ≠ '|' ∧ c ≠ '\n' := by
    intro c hc
    have := (List.all_eq_true.mp hall) c hc
    simp only [Bool.and_eq_true, decide_eq_true_eq] at this
    exact ⟨this.1.1, this.1.2, this.2⟩
  cases hh : v.head? with
  | none => rw [hh] at hends; simp at hends
  | some a =>
    cases hl : v.getLast? with
    | none => rw [hh, hl] at hends; simp at hends
    | some b =>
      rw [hh, hl] at hends
      simp only [Bool.and_eq_true, Bool.not_eq_true'] at hends
      refine ⟨?_, hmem, b, rfl, hends.2⟩
      rw [pyStrip_cons_space]
      exact pyStrip_eq_self hh hends.1 hl hends.2

theorem digit_facts {c : Char} (h : c ∈ digitChars) :
    c ≠ ':' ∧ c ≠ '|' ∧ c ≠ '\n' ∧ c ≠ ')' ∧ c ≠ 'm' ∧ c ≠ '/' ∧
      isPySpace c = false := by
  have hd : digitChars = ['0', '1', '2', '3', '4', '5', '6', '7', '8', '9'] := by decide
  rw [hd] at h
  simp only [List.mem_cons, List.not_mem_nil, or_false] at h
  rcases h with rfl | rfl | rfl | rfl | rfl | rfl | rfl | rfl | rfl | rfl <;> decide

theorem goodDigits_facts {v : Str} (h : goodDigits v = true) :
    v ≠ [] ∧ ∀ c ∈ v, c ∈ digitChars := by
  unfold goodDigits at h
  rw [Bool.and_eq_true] at h
  refine ⟨by simpa using h.1, ?_⟩
  intro c hc
  have := (List.all_eq_true.mp h.2) c hc
  simpa using this

/-! ### Line-shape lemmas -/

theorem typeLine_eq (v : Str) : typeLine v = "|  + Track type: ".data ++ v := by
  unfold typeLine
  have h : "|  + Track type: ".data = "|  + Track type".data ++ [':', ' '] := by decide
  rw [h, List.append_assoc]
  rfl

theorem codecLine_eq (v : Str) : codecLine v = "|  + Codec ID: ".data ++ v := by
  unfold codecLine
  have h : "|  + Codec ID: ".data = "|  + Codec ID".data ++ [':', ' '] := by decide
  rw [h, List.append_assoc]
  rfl

theorem langLine_eq (v : Str) : langLine v = "|  + Language: ".data ++ v := by
  unfold langLine
  have h : "|  + Language: ".data = "|  + Language".data ++ [':', ' '] := by decide
  rw [h, List.append_assoc]
  rfl

theorem ietfLine_eq (v : Str) : ietfLine v = "|  + Language (IETF): ".data ++ v := by
  unfold ietfLine
  have h : "|  + Language (IETF): ".data = "|  + Language (IETF)".data ++ [':', ' '] := by
    decide
  rw [h, List.append_assoc]
  rfl

theorem titleLine_eq (v : Str) : titleLine v = "|  + Title: ".data ++ v := by
  unfold titleLine
  have h : "|  + Title: ".data = "|  + Title".data ++ [':', ' '] := by decide
  rw [h, List.append_assoc]
  rfl

/-- Stripping a rendered marker line is the identity: it starts with `'|'`
and ends with the last (non-whitespace) character of its value. -/
theorem stripped_colon_line (pre v : Str) (hpre : pre.head? = some '|')
    {b : Char} (hvl : v.getLast? = some b) (hb : isPySpace b = false) :
    pyStrip (pre ++ ':' :: ' ' :: v) = pre ++ ':' :: ' ' :: v := by
  have hvne : v ≠ [] := by rintro rfl; simp at hvl
  have hhead : (pre ++ ':' :: ' ' :: v).head? = some '|' := by
    cases pre with
    | nil => simp at hpre
    | cons a t =>
      simp only [List.head?_cons, Option.some_inj] at hpre
      simp [hpre]
  have hlast : (pre ++ ':' :: ' ' :: v).getLast? = some b := by
    rw [List.getLast?_append_of_ne_nil pre (by simp)]
    show (([':', ' '] : Str) ++ v).getLast? = some b
    rw [List.getLast?_append_of_ne_nil _ hvne]
    exact hvl
  exact pyStrip_eq_self hhead (by decide) hlast hb

theorem pySplit_colon_get1_no (pre b : Str) (h1 : ':' ∉ pre) (h2 : ':' ∉ b) :
    (pySplit [':'] (pre ++ ':' :: b)).get? 1 = some b := by
  rw [pySplit_single_sep pre b h1, pySplit_single_no b h2]
  rfl

theorem pySplit_colon_get1_mid (pre b1 b2 : Str) (h1 : ':' ∉ pre) (h2 : ':' ∉ b1) :
    (pySplit [':'] (pre ++ ':' :: (b1 ++ ':' :: b2))).get? 1 = some b1 := by
  rw [pySplit_single_sep pre _ h1, pySplit_single_sep b1 b2 h2]
  rfl

/-! ### `parseLine` on each kind of rendered line -/

theorem parseLine_typeLine (tracks : List Track) (cur : CurTrack) (v : Str)
    (h : goodVal v = true) :
    parseLine (tracks, cur) (typeLine v) = .ok (tracks, { cur with track_type := v }) := by
  obtain ⟨hstrip, hmem, b, hvl, hb⟩ := goodVal_facts h
  have hline : pyStrip (typeLine v) = typeLine v :=
    stripped_colon_line _ v (by decide) hvl hb
  have h1 : hasSub numMarker (typeLine v) = false := by
    rw [typeLine_eq]
    have hn : numMarker = '|' :: "  + Track number:".data := by decide
    rw [hn]
    exact hasSub_append_concFalse _ _ (by decide)
      (hasSub_false_of_head_notMem (fun hc => (hmem _ hc).2.1 rfl))
  have h2 : hasSub typeMarker (typeLine v) = true := by
    rw [typeLine_eq]
    exact hasSub_append_left _ _ (by decide)
  have h3 : (pySplit [':'] (typeLine v)).get? 1 = some (' ' :: v) := by
    unfold typeLine
    exact pySplit_colon_get1_no _ _ (by decide)
      (fun hc => by
        rcases List.mem_cons.mp hc with h | h
        · exact absurd h (by decide)
        · exact (hmem _ h).1 rfl)
  simp only [parseLine, hline, h1, h2, h3]
  simp [hstrip]

theorem parseLine_codecLine (tracks : List Track) (cur : CurTrack) (v : Str)
    (h : goodVal v = true) :
    parseLine (tracks, cur) (codecLine v) = .ok (tracks, { cur with codec := v }) := by
  obtain ⟨hstrip, hmem, b, hvl, hb⟩ := goodVal_facts h
  have hline : pyStrip (codecLine v) = codecLine v :=
    stripped_colon_line _ v (by decide) hvl hb
  have hbar : hasSub ('|' :: "  + Track number:".data) v = false :=
    hasSub_false_of_head_notMem (fun hc => (hmem _ hc).2.1 rfl)
  have hbar2 : hasSub ('|' :: "  + Track type:".data) v = false :=
    hasSub_false_of_head_notMem (fun hc => (hmem _ hc).2.1 rfl)
  have h1 : hasSub numMarker (codecLine v) = false := by
    rw [codecLine_eq]
    have hn : numMarker = '|' :: "  + Track number:".data := by decide
    rw [hn]
    exact hasSub_append_concFalse _ _ (by decide) hbar
  have h2 : hasSub typeMarker (codecLine v) = false := by
    rw [codecLine_eq]
    have hn : typeMarker = '|' :: "  + Track type:".data := by decide
    rw [hn]
    exact hasSub_append_concFalse _ _ (by decide) hbar2
  have h3 : hasSub codecMarker (codecLine v) = true := by
    rw [codecLine_eq]
    exact hasSub_append_left _ _ (by decide)
  have h4 : (pySplit [':'] (codecLine v)).get? 1 = some (' ' :: v) := by
    unfold codecLine
    exact pySplit_colon_get1_no _ _ (by decide)
      (fun hc => by
        rcases List.mem_cons.mp hc with h | h
        · exact absurd h (by decide)
        · exact (hmem _ h).1 rfl)
  simp only [parseLine, hline, h1, h2, h3, h4]
  simp [hstrip]

theorem parseLine_langLine (tracks : List Track) (cur : CurTrack) (v : Str)
    (h : goodVal v = true) (hietf : hasSub ietfMarker v = false) :
    parseLine (tracks, cur) (langLine v) = .ok (tracks, { cur with language := v }) := by
  obtain ⟨hstrip, hmem, b, hvl, hb⟩ := goodVal_facts h
  have hline : pyStrip (langLine v) = langLine v :=
    stripped_colon_line _ v (by decide) hvl hb
  have hbar : hasSub ('|' :: "  + Track number:".data) v = false :=
    hasSub_false_of_head_notMem (fun hc => (hmem _ hc).2.1 rfl)
  have hbar2 : hasSub ('|' :: "  + Track type:".data) v = false :=
    hasSub_false_of_head_notMem (fun hc => (hmem _ hc).2.1 rfl)
  have hbar3 : hasSub ('|' :: "  + Codec ID:".data) v = false :=
    hasSub_false_of_head_notMem (fun hc => (hmem _ hc).2.1 rfl)
  have h1 : hasSub numMarker (langLine v) = false := by
    rw [langLine_eq]
    have hn : numMarker = '|' :: "  + Track number:".data := by decide
    rw [hn]
    exact hasSub_append_concFalse _ _ (by decide) hbar
  have h2 : hasSub typeMarker (langLine v) = false := by
    rw [langLine_eq]
    have hn : typeMarker = '|' :: "  + Track type:".data := by decide
    rw [hn]
    exact hasSub_append_concFalse _ _ (by decide) hbar2
  have h3 : hasSub codecMarker (langLine v) = false := by
    rw [langLine_eq]
    have hn : codecMarker = '|' :: "  + Codec ID:".data := by decide
    rw [hn]
    exact hasSub_append_concFalse _ _ (by decide) hbar3
  have h4 : hasSub langMarker (langLine v) = true := by
    rw [langLine_eq]
    exact hasSub_append_left _ _ (by decide)
  have h5 : hasSub ietfMarker (langLine v) = false := by
    rw [langLine_eq]
    have hn : ietfMarker = 'I' :: "ETF".data := by decide
    rw [hn]
    refine hasSub_append_concFalse _ _ (by decide) ?_
    rw [← hn]
    exact hietf
  have h6 : (pySplit [':'] (langLine v)).get? 1 = some (' ' :: v) := by
    unfold langLine
    exact pySplit_colon_get1_no _ _ (by decide)
      (fun hc => by
        rcases List.mem_cons.mp hc with h | h
        · exact absurd h (by decide)
        · exact (hmem _ h).1 rfl)
  simp only [parseLine, hline, h1, h2, h3, h4, h5, h6]
  simp [hstrip]

theorem parseLine_skip (st : List Track × CurTrack) (raw : Str)
    (h1 : hasSub numMarker (pyStrip raw) = false)
    (h2 : hasSub typeMarker (pyStrip raw) = false)
    (h3 : hasSub codecMarker (pyStrip raw) = false)
    (h4 : hasSub langMarker (pyStrip raw) = false ∨
          hasSub ietfMarker (pyStrip raw) = true) :
    parseLine st raw = .ok st := by
  obtain ⟨tracks, cur⟩ := st
  simp only [parseLine, h1, h2, h3]
  rcases h4 with h4 | h4 <;> simp [h4]

theorem parseLine_ietfLine (st : List Track × CurTrack) (v : Str)
    (h : goodVal v = true) :
    parseLine st (ietfLine v) = .ok st := by
  obtain ⟨hstrip, hmem, b, hvl, hb⟩ := goodVal_facts h
  have hline : pyStrip (ietfLine v) = ietfLine v :=
    stripped_colon_line _ v (by decide) hvl hb
  have hbar : hasSub ('|' :: "  + Track number:".data) v = false :=
    hasSub_false_of_head_notMem (fun hc => (hmem _ hc).2.1 rfl)
  have hbar2 : hasSub ('|' :: "  + Track type:".data) v = false :=
    hasSub_false_of_head_notMem (fun hc => (hmem _ hc).2.1 rfl)
  have hbar3 : hasSub ('|' :: "  + Codec ID:".data) v = false :=
    hasSub_false_of_head_notMem (fun hc => (hmem _ hc).2.1 rfl)
  have hbar4 : hasSub ('|' :: "  + Language:".data) v = false :=
    hasSub_false_of_head_notMem (fun hc => (hmem _ hc).2.1 rfl)
  refine parseLine_skip st _ ?_ ?_ ?_ (Or.inl ?_) <;> rw [hline, ietfLine_eq]
  · have hn : numMarker = '|' :: "  + Track number:".data := by decide
    rw [hn]
    exact hasSub_append_concFalse _ _ (by decide) hbar
  · have hn : typeMarker = '|' :: "  + Track type:".data := by decide
    rw [hn]
    exact hasSub_append_concFalse _ _ (by decide) hbar2
  · have hn : codecMarker = '|' :: "  + Codec ID:".data := by decide
    rw [hn]
    exact hasSub_append_concFalse _ _ (by decide) hbar3
  · have hn : langMarker = '|' :: "  + Language:".data := by decide
    rw [hn]
    exact hasSub_append_concFalse _ _ (by decide) hbar4

theorem numLine_strip (num id : Str) (hnum : goodDigits num = true)
    (hid : goodDigits id = true) : pyStrip (numLine num id) = numLine num id := by
  have hlast : (numLine num id).getLast? = some ')' := by
    unfold numLine
    rw [List.getLast?_append_of_ne_nil _ (by simp)]
    rw [List.getLast?_append_of_ne_nil _ (by simp)]
    rw [List.getLast?_append_of_ne_nil _ (by simp)]
    rw [List.getLast?_append_of_ne_nil _ (by simp)]
    show (([' '] : Str) ++ (id ++ [')'])).getLast? = some ')'
    rw [List.getLast?_append_of_ne_nil _ (by simp)]
    rw [List.getLast?_append_of_ne_nil _ (by simp)]
    rfl
  have hhead : (numLine num id).head? = some '|' := by
    unfold numLine
    have hc1 : "|  + Track number: ".data = '|' :: "  + Track number: ".data := by decide
    rw [hc1, List.cons_append]
    rfl
  exact pyStrip_eq_self hhead (by decide) hlast (by decide)

theorem numLine_split (num id : Str) (hnum : goodDigits num = true)
    (hid : goodDigits id = true) :
    (pySplit extractMarker (numLine num id)).get? 1 = some (' ' :: (id ++ [')'])) := by
  obtain ⟨hnne, hnd⟩ := goodDigits_facts hnum
  obtain ⟨hine, hid'⟩ := goodDigits_facts hid
  have hext : extractMarker = 'm' :: "kvextract:".data := by decide
  unfold numLine
  rw [hext]
  show (splitRun 'm' "kvextract:".data _ []).get? 1 = _
  rw [splitRun_skip_conc 'm' _ _ _ _ (by decide)]
  rw [splitRun_skip 'm' _ num _ _ (fun x hx => (digit_facts (hnd x hx)).2.2.2.2.1)]
  rw [splitRun_skip_conc 'm' _ _ _ _ (by decide)]
  rw [splitRun_hit]
  rw [splitRun_no_hit 'm' _ _ []
    (fun x hx => by
      rcases List.mem_cons.mp hx with rfl | hx
      · decide
      · rcases List.mem_append.mp hx with hx | hx
        · exact (digit_facts (hid' x hx)).2.2.2.2.1
        · rcases List.mem_singleton.mp hx with rfl; decide)]
  simp

theorem numLine_extract (num id : Str) (hnum : goodDigits num = true)
    (hid : goodDigits id = true) :
    pyRstripParen (pyStrip (' ' :: (id ++ [')']))) = id := by
  obtain ⟨hine, hid'⟩ := goodDigits_facts hid
  obtain ⟨c, t, rfl⟩ : ∃ c t, id = c :: t := by
    cases id with
    | nil => exact absurd rfl hine
    | cons c t => exact ⟨c, t, rfl⟩
  have hc : c ∈ digitChars := hid' c (by simp)
  have hstrip : pyStrip ((c :: t) ++ [')']) = (c :: t) ++ [')'] := by
    refine pyStrip_eq_self (a := c) (b := ')') ?_ ?_ ?_ (by decide)
    · simp
    · exact (digit_facts hc).2.2.2.2.2.2
    · rw [List.getLast?_append_of_ne_nil _ (by simp)]
      rfl
  rw [pyStrip_cons_space, hstrip]
  obtain ⟨d, hd⟩ : ∃ d, (c :: t).getLast? = some d := by
    cases hgl : (c :: t).getLast? with
    | none => rw [List.getLast?_eq_none_iff] at hgl; simp at hgl
    | some d => exact ⟨d, rfl⟩
  have hdmem : d ∈ c :: t := List.mem_of_mem_getLast? (by rw [hd]; rfl)
  have hdne : (d == ')') = false :=
    beq_eq_false_iff_ne.mpr (digit_facts (hid' d hdmem)).2.2.2.1
  have h1 : ([')'] : Str) = List.replicate 1 ')' := rfl
  rw [h1]
  exact pyRstripParen_append 1 hd hdne

theorem parseLine_numLine (tracks : List Track) (cur : CurTrack) (num id : Str)
    (hnum : goodDigits num = true) (hid : goodDigits id = true) :
    parseLine (tracks, cur) (numLine num id) =
      .ok (finalized tracks cur,
        { (if cur.track_id ≠ [] then initCur else cur) with track_id := id }) := by
  have hline : pyStrip (numLine num id) = numLine num id := numLine_strip num id hnum hid
  have h1 : hasSub numMarker (numLine num id) = true := by
    unfold numLine
    exact hasSub_append_left _ _ (by decide)
  have h2 := numLine_split num id hnum hid
  have h3 := numLine_extract num id hnum hid
  simp only [parseLine, hline, h1, h2, h3, finalized]
  simp

/-! ### Folding the parser over rendered blocks -/

theorem foldlM_parseLine_cons (st st' : List Track × CurTrack) (l : Str)
    (ls : List Str) (h : parseLine st l = .ok st') :
    List.foldlM parseLine st (l :: ls) = List.foldlM parseLine st' ls := by
  rw [List.foldlM_cons, h]
  rfl

theorem wfBlock_parts {b : RawBlock} (hb : wfBlock b = true) :
    goodDigits b.num = true ∧ goodDigits b.id = true ∧ goodVal b.ty = true ∧
      goodVal b.codec = true ∧
      (∀ v, b.lang = some v → goodVal v = true ∧ hasSub ietfMarker v = false) ∧
      (∀ v, b.ietf = some v → goodVal v = true) := by
  unfold wfBlock at hb
  simp only [Bool.and_eq_true, and_assoc] at hb
  obtain ⟨h1, h2, h3, h4, h5, h6⟩ := hb
  refine ⟨h1, h2, h3, h4, ?_, ?_⟩
  · intro v hv
    rw [hv] at h5
    simp only [Bool.and_eq_true, Bool.not_eq_true'] at h5
    exact h5
  · intro v hv
    rw [hv] at h6
    exact h6

theorem curOf_id_ne {b : RawBlock} (hb : wfBlock b = true) :
    (curOf b).track_id ≠ [] := by
  obtain ⟨_, hid, _⟩ := wfBlock_parts hb
  exact (goodDigits_facts hid).1

theorem foldlM_block (b : RawBlock) (rest : List Str) (tracks : List Track)
    (cur : CurTrack) (hb : wfBlock b = true)
    (hcur : cur = initCur ∨ cur.track_id ≠ []) :
    List.foldlM parseLine (tracks, cur) (blockLines b ++ rest) =
      List.foldlM parseLine (finalized tracks cur, curOf b) rest := by
  obtain ⟨hnum, hid, hty, hcodec, hlang, hietf⟩ := wfBlock_parts hb
  have hbase :
      ({ (if cur.track_id ≠ [] then initCur else cur) with track_id := b.id } : CurTrack) =
        ⟨b.id, [], "undefined".data, []⟩ := by
    rcases hcur with rfl | hcur
    · simp [initCur]
    · simp [hcur, initCur]
  rcases hl : b.lang with _ | v <;> rcases hi : b.ietf with _ | w <;>
    simp only [blockLines, hl, hi, List.nil_append, List.append_nil,
      List.cons_append, List.singleton_append] <;>
    rw [foldlM_parseLine_cons _ _ _ _ (parseLine_numLine tracks cur b.num b.id hnum hid),
        hbase,
        foldlM_parseLine_cons _ _ _ _ (parseLine_typeLine _ _ _ hty),
        foldlM_parseLine_cons _ _ _ _ (parseLine_codecLine _ _ _ hcodec)]
  · show List.foldlM parseLine (finalized tracks cur, (⟨b.id, b.ty, "undefined".data, b.codec⟩ : CurTrack)) rest = _
    simp [curOf, hl]
  · rw [foldlM_parseLine_cons _ _ _ _ (parseLine_ietfLine _ w (hietf w hi))]
    simp [curOf, hl]
  · rw [foldlM_parseLine_cons _ _ _ _
      (parseLine_langLine _ _ v (hlang v hl).1 (hlang v hl).2)]
    simp [curOf, hl]
  · rw [foldlM_parseLine_cons _ _ _ _
      (parseLine_langLine _ _ v (hlang v hl).1 (hlang v hl).2),
      foldlM_parseLine_cons _ _ _ _ (parseLine_ietfLine _ w (hietf w hi))]
    simp [curOf, hl]

theorem foldlM_blocks (bs : List RawBlock) (hwf : ∀ b ∈ bs, wfBlock b = true)
    (tracks : List Track) (cur : CurTrack)
    (hcur : cur = initCur ∨ cur.track_id ≠ []) :
    List.foldlM parseLine (tracks, cur) ((bs.map blockLines).join) =
      .ok (parseBlocksEnd tracks cur bs) := by
  induction bs generalizing tracks cur with
  | nil => rfl
  | cons b bs ih =>
    simp only [List.map_cons, List.join_cons]
    rw [foldlM_block b _ tracks cur (hwf b (by simp)) hcur]
    rw [ih (fun x hx => hwf x (by simp [hx])) _ _ (Or.inr (curOf_id_ne (hwf b (by simp))))]
    rfl

theorem parseBlocksEnd_final (bs : List RawBlock) (hwf : ∀ b ∈ bs, wfBlock b = true)
    (tracks : List Track) (cur : CurTrack) :
    finalized (parseBlocksEnd tracks cur bs).1 (parseBlocksEnd tracks cur bs).2 =
      finalized tracks cur ++ bs.map blockTrack := by
  induction bs generalizing tracks cur with
  | nil => simp [parseBlocksEnd]
  | cons b bs ih =>
    simp only [parseBlocksEnd, List.map_cons]
    rw [ih (fun x hx => hwf x (by simp [hx]))]
    have hid : (curOf b).track_id ≠ [] := curOf_id_ne (hwf b (by simp))
    have : finalized (finalized tracks cur) (curOf b) =
        finalized tracks cur ++ [blockTrack b] := by
      unfold finalized
      rw [if_pos hid]
      rfl
    rw [this, List.append_assoc]
    rfl

theorem parse_tracks_eq (stdout : Str) (T : List Track) (C : CurTrack)
    (h : List.foldlM parseLine ([], initCur) (pySplit ['\n'] stdout) = .ok (T, C)) :
    parse_tracks stdout = .ok (finalized T C) := by
  unfold parse_tracks
  simp only [h]
  show (if C.track_id ≠ [] then Except.ok (T ++ [C.toTrack]) else Except.ok T) =
    Except.ok (finalized T C)
  unfold finalized
  split <;> rfl

theorem no_newline_colon_line (pre v : Str) (hp : '\n' ∉ pre) (hv : '\n' ∉ v) :
    '\n' ∉ (pre ++ ':' :: ' ' :: v) := by
  intro hc
  rcases List.mem_append.mp hc with h | h
  · exact hp h
  · rcases List.mem_cons.mp h with h | h
    · exact absurd h (by decide)
    · rcases List.mem_cons.mp h with h | h
      · exact absurd h (by decide)
      · exact hv h

theorem goodVal_no_newline {v : Str} (h : goodVal v = true) : '\n' ∉ v := by
  intro hc
  exact (goodVal_facts h).2.1 _ hc |>.2.2 rfl

theorem goodDigits_no_newline {v : Str} (h : goodDigits v = true) : '\n' ∉ v := by
  intro hc
  exact (digit_facts ((goodDigits_facts h).2 _ hc)).2.2.1 rfl

theorem blockLines_no_newline (b : RawBlock) (hb : wfBlock b = true) :
    ∀ l ∈ blockLines b, '\n' ∉ l := by
  obtain ⟨hnum, hid, hty, hcodec, hlang, hietf⟩ := wfBlock_parts hb
  intro l hl
  unfold blockLines at hl
  simp only [List.mem_append, List.mem_cons, List.not_mem_nil, or_false] at hl
  rcases hl with (rfl | rfl | rfl) | hl
  · unfold numLine
    intro hc
    rcases List.mem_append.mp hc with h | h
    · exact absurd h (by decide)
    rcases List.mem_append.mp h with h | h
    · exact goodDigits_no_newline hnum h
    rcases List.mem_append.mp h with h | h
    · exact absurd h (by decide)
    rcases List.mem_append.mp h with h | h
    · exact absurd h (by decide)
    rcases List.mem_cons.mp h with h | h
    · exact absurd h (by decide)
    rcases List.mem_append.mp h with h | h
    · exact goodDigits_no_newline hid h
    · exact absurd h (by decide)
  · exact no_newline_colon_line _ _ (by decide) (goodVal_no_newline hty)
  · exact no_newline_colon_line _ _ (by decide) (goodVal_no_newline hcodec)
  · rcases hlv : b.lang with _ | v <;> rcases hiv : b.ietf with _ | w <;>
      rw [hlv, hiv] at hl <;>
      simp only [List.mem_append, List.mem_singleton, List.not_mem_nil,
        List.append_nil, List.nil_append, or_false, false_or] at hl
    · subst hl
      exact no_newline_colon_line _ _ (by decide) (goodVal_no_newline (hietf w hiv))
    · subst hl
      exact no_newline_colon_line _ _ (by decide) (goodVal_no_newline (hlang v hlv).1)
    · rcases hl with rfl | rfl
      · exact no_newline_colon_line _ _ (by decide) (goodVal_no_newline (hlang v hlv).1)
      · exact no_newline_colon_line _ _ (by decide) (goodVal_no_newline (hietf w hiv))

theorem pySplit_joinNL (ls : List Str) (hne : ls ≠ [])
    (h : ∀ l ∈ ls, '\n' ∉ l) : pySplit ['\n'] (joinNL ls) = ls := by
  induction ls with
  | nil => exact absurd rfl hne
  | cons l ls ih =>
    cases ls with
    | nil =>
      show pySplit ['\n'] l = [l]
      exact pySplit_single_no l (h l (by simp))
    | cons l2 rest =>
      show pySplit ['\n'] (l ++ '\n' :: joinNL (l2 :: rest)) = l :: (l2 :: rest)
      rw [pySplit_single_sep l _ (h l (by simp))]
      rw [ih (by simp) (fun x hx => h x (by simp [hx]))]

theorem size_gate_iff (o n : Nat) :
    size_gate o n = true ↔ (o : ℚ) / 2 < (n : ℚ) := by
  unfold size_gate
  rw [decide_eq_true_iff]
  rw [div_lt_iff (by norm_num : (0:ℚ) < 2)]
  constructor
  · intro h
    have h3 : ((o : Nat) : ℚ) < ((2 * n : Nat) : ℚ) := by exact_mod_cast h
    push_cast at h3
    linarith
  · intro h
    have h3 : (o : ℚ) < ((2 * n : Nat) : ℚ) := by push_cast; linarith
    exact_mod_cast h3

theorem size_gate_eq (o n : Nat) : size_gate o n = decide (o < 2 * n) := rfl

/-! ### Claim theorems -/

/-- C10: in the stitcher's fixed preset mapping, `"480p"` maps to 640x360
(not 640x480 or 854x480), and for every preset the requested fps is
returned unchanged. -/
theorem get_resolution_and_fps_preset_spec :
    ∀ f : Nat,
      get_resolution_and_fps "480p".data f = .ok (640, 360, f) ∧
      get_resolution_and_fps "720p".data f = .ok (1280, 720, f) ∧
      get_resolution_and_fps "1080p".data f = .ok (1920, 1080, f) ∧
      get_resolution_and_fps "4K".data f = .ok (3840, 2160, f) := by
  intro f
  refine ⟨rfl, ?_, ?_, ?_⟩ <;>
    simp [get_resolution_and_fps] <;> decide

/-- C1: after the remux, the audio-language filter accepts the temp file as
replacement iff its size is strictly greater than half the original size;
on acceptance the temp file's bytes replace the original and the temp path
is retired; otherwise the run exits 1, the temp file is removed, the
original bytes are untouched, and the abort message is printed.  At exactly
40% of the original size the gate rejects, at 51% it accepts. -/
theorem audio_size_gate_spec (env : Env) (keep : Str) (tracks : List Track)
    (file : Str) (st : St)
    (hmerge : env.merge_ok = true)
    (htarget : (tracks.filter (fun t => t.type = "audio".data)).filter
        (fun t => t.language = keep) ≠ [])
    (hnontarget : (tracks.filter (fun t => t.type = "audio".data)).filter
        (fun t => t.language ≠ keep) ≠ []) :
    ((audio_step env false keep tracks file st).2 = none ↔
        st.content.length < 2 * env.remux_content.length) ∧
    (st.content.length < 2 * env.remux_content.length →
        (audio_step env false keep tracks file st).1.content = env.remux_content ∧
        (audio_step env false keep tracks file st).1.temp = none) ∧
    (¬ st.content.length < 2 * env.remux_content.length →
        (audio_step env false keep tracks file st).2 = some 1 ∧
        (audio_step env false keep tracks file st).1.content = st.content ∧
        (audio_step env false keep tracks file st).1.temp = none ∧
        Msg.suspiciousAborted ∈ (audio_step env false keep tracks file st).1.log) ∧
    size_gate 100 40 = false ∧ size_gate 100 51 = true ∧
    (∀ o n : Nat, size_gate o n = true ↔ (o : ℚ) / 2 < (n : ℚ)) := by
  by_cases hg : st.content.length < 2 * env.remux_content.length
  · have hgate : size_gate st.content.length env.remux_content.length = true := by
      simp [size_gate, hg]
    have hstep : (audio_step env false keep tracks file st).2 = none ∧
        (audio_step env false keep tracks file st).1.content = env.remux_content ∧
        (audio_step env false keep tracks file st).1.temp = none := by
      simp only [audio_step]
      rw [if_pos hnontarget, if_neg htarget]
      simp [hmerge, hgate, St.say, St.sayAll, St.runCmd]
    exact ⟨by simp [hstep.1, hg], fun _ => hstep.2, fun hc => absurd hg hc,
      by rw [size_gate_eq]; rfl, by rw [size_gate_eq]; rfl, size_gate_iff⟩
  · have hgate : size_gate st.content.length env.remux_content.length = false := by
      simp [size_gate, hg]
    have hstep : (audio_step env false keep tracks file st).2 = some 1 ∧
        (audio_step env false keep tracks file st).1.content = st.content ∧
        (audio_step env false keep tracks file st).1.temp = none ∧
        Msg.suspiciousAborted ∈ (audio_step env false keep tracks file st).1.log := by
      simp only [audio_step]
      rw [if_pos hnontarget, if_neg htarget]
      simp [hmerge, hgate, St.say, St.sayAll, St.runCmd]
    exact ⟨by simp [hstep.1, hg], fun hc => absurd hc hg,
      fun _ => ⟨hstep.1, hstep.2.1, hstep.2.2.1, hstep.2.2.2⟩,
      by rw [size_gate_eq]; rfl, by rw [size_gate_eq]; rfl, size_gate_iff⟩

/-- C1 witness: a concrete 100-byte file with one `eng` and one `jpn` audio
track and a 51-byte remux output. -/
theorem audio_size_gate_spec_witness :
    (audio_step ⟨true, true, [], true, List.replicate 51 0, true, [], [], true, []⟩
        false "eng".data
        [⟨"0".data, "audio".data, "eng".data, []⟩, ⟨"1".data, "audio".data, "jpn".data, []⟩]
        "a.mkv".data ⟨List.replicate 100 0, none, [], []⟩).2 = none :=
  (audio_size_gate_spec
      ⟨true, true, [], true, List.replicate 51 0, true, [], [], true, []⟩
      "eng".data
      [⟨"0".data, "audio".data, "eng".data, []⟩, ⟨"1".data, "audio".data, "jpn".data, []⟩]
      "a.mkv".data ⟨List.replicate 100 0, none, [], []⟩
      (by decide) (by decide) (by decide)).1.mpr (by decide)

/-- C3 counterexample: a stitcher run whose external encode command fails
(tools present, one matching 4K input file, `encode_ok = false`) terminates
with exit code 0, not 1 — the `CalledProcessError` is caught and only
printed (`hevc_stitcher.py` lines 371-372). -/
theorem stitcher_encode_failure_exit_zero :
    (concatenate_and_encode ⟨true, [⟨"a.mp4".data, 3840, 2160, 0⟩], false⟩
        "4K".data 30 .filename false).exit = 0 ∧
    (concatenate_and_encode ⟨true, [⟨"a.mp4".data, 3840, 2160, 0⟩], false⟩
        "4K".data 30 .filename false).ran_ffmpeg = true ∧
    SMsg.encodeError ∈ (concatenate_and_encode ⟨true, [⟨"a.mp4".data, 3840, 2160, 0⟩],
        false⟩ "4K".data 30 .filename false).log := by
  refine ⟨rfl, rfl, ?_⟩
  decide

/-- C3 amended: the stitcher exits 1 exactly for missing tools, a
resolution mismatch, or an empty input list; it exits 0 otherwise —
including dry-run and also (amended) when the external encode command
fails, because that failure is caught and only reported. -/
theorem stitcher_exit_code_spec (env : SEnv) (resolution : Str) (fps : Nat)
    (sort_by : SortBy) (dry : Bool) :
    (env.tools_ok = false → (concatenate_and_encode env resolution fps sort_by dry).exit = 1) ∧
    (env.tools_ok = true → ∀ w h f, get_resolution_and_fps resolution fps = .ok (w, h, f) →
      (verify_resolutions env.listing w h ≠ [] →
        (concatenate_and_encode env resolution fps sort_by dry).exit = 1) ∧
      (verify_resolutions env.listing w h = [] →
        get_sorted_video_files env.listing sort_by = [] →
        (concatenate_and_encode env resolution fps sort_by dry).exit = 1) ∧
      (verify_resolutions env.listing w h = [] →
        get_sorted_video_files env.listing sort_by ≠ [] →
        (concatenate_and_encode env resolution fps sort_by dry).exit = 0 ∧
        (dry = true →
          (concatenate_and_encode env resolution fps sort_by dry).ran_ffmpeg = false) ∧
        (dry = false → env.encode_ok = false →
          SMsg.encodeError ∈ (concatenate_and_encode env resolution fps sort_by dry).log))) := by
  constructor
  · intro htools
    simp [concatenate_and_encode, htools]
  · intro htools w h f hres
    refine ⟨?_, ?_, ?_⟩
    · intro hmis
      simp [concatenate_and_encode, htools, hres, hmis]
    · intro hmis hemp
      simp [concatenate_and_encode, htools, hres, hmis, hemp]
    · intro hmis hne
      refine ⟨?_, ?_, ?_⟩
      · cases dry <;> cases henc : env.encode_ok <;>
          simp [concatenate_and_encode, htools, hres, hmis, hne, henc]
      · intro hdry
        simp [concatenate_and_encode, htools, hres, hmis, hne, hdry]
      · intro hdry henc
        simp [concatenate_and_encode, htools, hres, hmis, hne, hdry, henc]

/-- C3 witness: the amended exit-code characterization at a concrete run
with one matching input file and a failing encode. -/
theorem stitcher_exit_code_spec_witness :
    (concatenate_and_encode ⟨true, [⟨"a.mp4".data, 3840, 2160, 0⟩], false⟩
        "4K".data 30 .filename false).exit = 0 ∧
    SMsg.encodeError ∈ (concatenate_and_encode ⟨true, [⟨"a.mp4".data, 3840, 2160, 0⟩],
        false⟩ "4K".data 30 .filename false).log := by
  have h := (stitcher_exit_code_spec ⟨true, [⟨"a.mp4".data, 3840, 2160, 0⟩], false⟩
      "4K".data 30 .filename false).2 rfl 3840 2160 30 rfl
  exact ⟨(h.2.2 (by decide) (by decide)).1,
    (h.2.2 (by decide) (by decide)).2.2 rfl rfl⟩

/-- C2 counterexample: with the required tools installed and an `.mkv` file
argument naming a non-existent path, the MKV processor prints the
not-found message and exits 0, not 1 — `process_mkv_file` merely returns
after the existence check (`process_mkv.py` lines 73-75) and `main` never
turns that into an error exit. -/
theorem mkv_missing_file_exit_zero :
    (main_run ⟨true, false, [], true, [], true, [], [], true, []⟩ ⟨none, false, false⟩
        (some "a.mkv".data) [0]).2 = 0 ∧
    Msg.fileNotFound ∈ (main_run ⟨true, false, [], true, [], true, [], [], true, []⟩
        ⟨none, false, false⟩ (some "a.mkv".data) [0]).1.log := by
  refine ⟨rfl, ?_⟩
  decide

theorem audio_step_abort (env : Env) (keep : Str) (tracks : List Track)
    (file : Str) (st : St)
    (hm : env.merge_ok = true)
    (htar : (tracks.filter (fun t => t.type = "audio".data)).filter
        (fun t => t.language = keep) ≠ [])
    (hnon : (tracks.filter (fun t => t.type = "audio".data)).filter
        (fun t => t.language ≠ keep) ≠ [])
    (hg : size_gate st.content.length env.remux_content.length = false) :
    (audio_step env false keep tracks file st).2 = some 1 := by
  simp only [audio_step]
  rw [if_pos hnon, if_neg htar]
  simp [hm, hg, St.say, St.sayAll, St.runCmd]

theorem pipeline_steps_abort (env : Env) (keep : Str) (ds : Bool)
    (tracks : List Track) (file : Str) (st : St)
    (ha : (audio_step env false keep tracks file st).2 = some 1) :
    (pipeline_steps env ⟨some keep, ds, false⟩ tracks file st).2 = some 1 := by
  simp only [pipeline_steps, ha]

/-- C2 amended: missing tools and a wrong container extension exit 1, and
a failed post-remux size check exits 1 (proved in general: whenever the
file exists, the track list has both target and non-target audio, the
remux runs and the size gate rejects its output, the process exits 1);
but a non-existent file path (amended) prints the not-found message and
exits 0. -/
theorem mkv_exit_code_spec (env : Env) (opts : Opts) (f : Str) (c : List Nat) :
    (env.tools_ok = true → f ≠ [] → pyEndsWith ".mkv".data f = true →
      env.file_exists = false →
      (main_run env opts (some f) c).2 = 0 ∧
      Msg.fileNotFound ∈ (main_run env opts (some f) c).1.log) ∧
    (env.tools_ok = false → f ≠ [] → (main_run env opts (some f) c).2 = 1) ∧
    (env.tools_ok = true → f ≠ [] → pyEndsWith ".mkv".data f = false →
      (main_run env opts (some f) c).2 = 1) ∧
    (∀ (keep : Str) (ds : Bool) (tracks : List Track),
      env.tools_ok = true → f ≠ [] → pyEndsWith ".mkv".data f = true →
      env.file_exists = true → parse_tracks env.info_out = .ok tracks →
      env.merge_ok = true →
      (tracks.filter (fun t => t.type = "audio".data)).filter
        (fun t => t.language = keep) ≠ [] →
      (tracks.filter (fun t => t.type = "audio".data)).filter
        (fun t => t.language ≠ keep) ≠ [] →
      size_gate c.length env.remux_content.length = false →
      (main_run env ⟨some keep, ds, false⟩ (some f) c).2 = 1) := by
  refine ⟨?_, ?_, ?_, ?_⟩
  · intro htools hne hext hexists
    constructor
    · simp [main_run, process_mkv_file, htools, hne, hext, hexists]
    · simp [main_run, process_mkv_file, htools, hne, hext, hexists, St.say]
  · intro htools hne
    simp [main_run, htools, hne]
  · intro htools hne hext
    simp [main_run, htools, hne, hext]
  · intro keep ds tracks htools hf hext hex hpt hm htar hnon hg
    simp only [main_run]
    rw [if_neg hf, if_neg (by simp [htools]), if_neg (by simp [hext])]
    suffices hproc : (process_mkv_file env ⟨some keep, ds, false⟩ f c).2 = some 1 by
      simp [hproc]
    simp only [process_mkv_file]
    rw [if_neg (by simp [hex])]
    simp only [hpt]
    refine pipeline_steps_abort env keep ds tracks f _ ?_
    refine audio_step_abort env keep tracks f _ hm htar hnon ?_
    simpa [St.say, St.sayAll, St.runCmd] using hg

/-- C2 witness: the amended characterization applied at concrete runs for
the not-found, missing-tools and wrong-extension causes. -/
theorem mkv_exit_code_spec_witness :
    ((main_run ⟨true, false, [], true, [], true, [], [], true, []⟩ ⟨none, false, false⟩
        (some "a.mkv".data) [0]).2 = 0 ∧
      Msg.fileNotFound ∈ (main_run ⟨true, false, [], true, [], true, [], [], true, []⟩
        ⟨none, false, false⟩ (some "a.mkv".data) [0]).1.log) ∧
    (main_run ⟨false, true, [], true, [], true, [], [], true, []⟩ ⟨none, false, false⟩
        (some "a.mkv".data) [0]).2 = 1 ∧
    (main_run ⟨true, true, [], true, [], true, [], [], true, []⟩ ⟨none, false, false⟩
        (some "a.avi".data) [0]).2 = 1 ∧
    (main_run
        ⟨true, true,
          ("|  + Track number: 1 (track ID for mkvmerge & mkvextract: 0)\n" ++
           "|  + Track type: audio\n|  + Language: eng\n" ++
           "|  + Track number: 2 (track ID for mkvmerge & mkvextract: 1)\n" ++
           "|  + Track type: audio\n|  + Language: jpn").data,
          true, List.replicate 40 0, true, [], [], true, []⟩
        ⟨some "eng".data, false, false⟩ (some "a.mkv".data)
        (List.replicate 100 0)).2 = 1 :=
  ⟨(mkv_exit_code_spec ⟨true, false, [], true, [], true, [], [], true, []⟩
      ⟨none, false, false⟩ "a.mkv".data [0]).1 rfl (by decide) (by decide) rfl,
   (mkv_exit_code_spec ⟨false, true, [], true, [], true, [], [], true, []⟩
      ⟨none, false, false⟩ "a.mkv".data [0]).2.1 rfl (by decide),
   (mkv_exit_code_spec ⟨true, true, [], true, [], true, [], [], true, []⟩
      ⟨none, false, false⟩ "a.avi".data [0]).2.2.1 rfl (by decide) (by decide),
   (mkv_exit_code_spec
      ⟨true, true,
        ("|  + Track number: 1 (track ID for mkvmerge & mkvextract: 0)\n" ++
         "|  + Track type: audio\n|  + Language: eng\n" ++
         "|  + Track number: 2 (track ID for mkvmerge & mkvextract: 1)\n" ++
         "|  + Track type: audio\n|  + Language: jpn").data,
        true, List.replicate 40 0, true, [], [], true, []⟩
      ⟨some "eng".data, false, false⟩ "a.mkv".data
      (List.replicate 100 0)).2.2.2 "eng".data false
      [⟨"0".data, "audio".data, "eng".data, []⟩,
       ⟨"1".data, "audio".data, "jpn".data, []⟩]
      rfl (by decide) (by decide) rfl (by decide) rfl
      (by decide) (by decide) (by decide)⟩

/-- C4: when some audio track misses the requested language but no audio
track matches it, the filter only warns — no command is issued, the file
bytes and the temp path are untouched, and the run continues; and when
every audio track already matches, the filter reports that no change is
needed and does nothing (idempotent no-op). -/
theorem audio_filter_refusal_spec (env : Env) (dry : Bool) (keep : Str)
    (tracks : List Track) (file : Str) (st : St) :
    ((tracks.filter (fun t => t.type = "audio".data)).filter
        (fun t => t.language ≠ keep) ≠ [] →
      (tracks.filter (fun t => t.type = "audio".data)).filter
        (fun t => t.language = keep) = [] →
      (audio_step env dry keep tracks file st).1.content = st.content ∧
      (audio_step env dry keep tracks file st).1.cmds = st.cmds ∧
      (audio_step env dry keep tracks file st).1.temp = st.temp ∧
      (audio_step env dry keep tracks file st).2 = none ∧
      Msg.warnNoTarget ∈ (audio_step env dry keep tracks file st).1.log) ∧
    ((tracks.filter (fun t => t.type = "audio".data)).filter
        (fun t => t.language ≠ keep) = [] →
      (audio_step env dry keep tracks file st).1.content = st.content ∧
      (audio_step env dry keep tracks file st).1.cmds = st.cmds ∧
      (audio_step env dry keep tracks file st).1.temp = st.temp ∧
      (audio_step env dry keep tracks file st).2 = none ∧
      Msg.noAudioChanges ∈ (audio_step env dry keep tracks file st).1.log) := by
  constructor
  · intro hnon htar
    have hstep : audio_step env dry keep tracks file st =
        ((((st.say .analyzing).sayAll
            (((tracks.filter (fun t => t.type = "audio".data)).filter
              (fun t => t.language = keep)).map (fun t => .foundKeep t.track_id))).sayAll
            (((tracks.filter (fun t => t.type = "audio".data)).filter
              (fun t => t.language ≠ keep)).map
                (fun t => .foundRemove t.track_id))).say .warnNoTarget, none) := by
      simp only [audio_step]
      rw [if_pos hnon, if_pos htar]
    rw [hstep]
    simp [St.say, St.sayAll]
  · intro hnon
    have hstep : audio_step env dry keep tracks file st =
        ((((st.say .analyzing).sayAll
            (((tracks.filter (fun t => t.type = "audio".data)).filter
              (fun t => t.language = keep)).map (fun t => .foundKeep t.track_id))).sayAll
            (((tracks.filter (fun t => t.type = "audio".data)).filter
              (fun t => t.language ≠ keep)).map
                (fun t => .foundRemove t.track_id))).say .noAudioChanges, none) := by
      simp only [audio_step]
      rw [if_neg (by simpa using hnon)]
    rw [hstep]
    simp [St.say, St.sayAll]

/-- C4 witness: all-`jpn` audio with `keep_language = "eng"` (refusal), and
all-`eng` audio with `keep_language = "eng"` (no-op). -/
theorem audio_filter_refusal_spec_witness :
    ((audio_step ⟨true, true, [], true, [], true, [], [], true, []⟩ false "eng".data
        [⟨"1".data, "audio".data, "jpn".data, []⟩] "a.mkv".data
        ⟨[0, 1], none, [], []⟩).1.content = ([0, 1] : List Nat) ∧
      Msg.warnNoTarget ∈ (audio_step ⟨true, true, [], true, [], true, [], [], true, []⟩
        false "eng".data [⟨"1".data, "audio".data, "jpn".data, []⟩] "a.mkv".data
        ⟨[0, 1], none, [], []⟩).1.log) ∧
    (audio_step ⟨true, true, [], true, [], true, [], [], true, []⟩ false "eng".data
        [⟨"0".data, "audio".data, "eng".data, []⟩] "a.mkv".data
        ⟨[0, 1], none, [], []⟩).1.cmds = [] := by
  have h1 := (audio_filter_refusal_spec ⟨true, true, [], true, [], true, [], [], true, []⟩
      false "eng".data [⟨"1".data, "audio".data, "jpn".data, []⟩] "a.mkv".data
      ⟨[0, 1], none, [], []⟩).1 (by decide) (by decide)
  have h2 := (audio_filter_refusal_spec ⟨true, true, [], true, [], true, [], [], true, []⟩
      false "eng".data [⟨"0".data, "audio".data, "eng".data, []⟩] "a.mkv".data
      ⟨[0, 1], none, [], []⟩).2 (by decide)
  exact ⟨⟨h1.1, h1.2.2.2.2⟩, h2.2.1⟩

/-- After the metadata-edit tool has stored a well-formed title, the title
probe reads back exactly that title. -/
theorem probe_title_render (t : Str) (h : goodVal t = true) :
    probe_title (render_title_info (some t)) = some t := by
  obtain ⟨hstrip, hmem, b, hvl, hb⟩ := goodVal_facts h
  have hshape : render_title_info (some t) = titleLine t := by
    show titleMarker ++ ' ' :: t = _
    unfold titleLine
    have hm : titleMarker = "|  + Title".data ++ [':'] := by decide
    rw [hm, List.append_assoc]
    rfl
  rw [hshape]
  have hnl : pySplit ['\n'] (titleLine t) = [titleLine t] := by
    refine pySplit_single_no _ ?_
    unfold titleLine
    exact no_newline_colon_line _ _ (by decide) (goodVal_no_newline h)
  have hts : hasSub titleMarker (titleLine t) = true := by
    rw [titleLine_eq]
    exact hasSub_append_left _ _ (by decide)
  have hget : (pySplit [':'] (titleLine t)).get? 1 = some (' ' :: t) := by
    unfold titleLine
    exact pySplit_colon_get1_no _ _ (by decide)
      (fun hc => by
        rcases List.mem_cons.mp hc with h | h
        · exact absurd h (by decide)
        · exact (hmem _ h).1 rfl)
  unfold probe_title
  rw [hnl]
  unfold probe_title_lines
  rw [if_pos hts, hget]
  simp [hstrip]

/-- C7 counterexample: for the file `a:b.mkv` the expected title is `a:b`;
after the first run stores it, the probe reads back only `a` (the text
between the first and second colons), so the second run mutates again —
the normalizer is not idempotent for base names containing a colon. -/
theorem title_normalizer_colon_counterexample :
    py_splitext_root (py_basename "a:b.mkv".data) = "a:b".data ∧
    (title_run "a:b".data none).2 = true ∧
    (title_run "a:b".data ((title_run "a:b".data none).1)).2 = true ∧
    probe_title (render_title_info ((title_run "a:b".data none).1)) ≠
      some "a:b".data := by
  refine ⟨by decide, by decide, by decide, by decide⟩

/-- C7 amended: for every expected title that is a well-formed value — in
particular containing no colon — the title normalizer is idempotent: after
one run the probed title equals the expected title and the second run
performs no mutation, whatever the initial embedded title was. -/
theorem title_normalizer_idempotent_spec (t : Str) (e0 : Option Str)
    (h : goodVal t = true) :
    (title_run t ((title_run t e0).1)).2 = false ∧
    probe_title (render_title_info ((title_run t e0).1)) = some t := by
  have hpr := probe_title_render t h
  by_cases hc : probe_title (render_title_info e0) = some t
  · have hr1 : title_run t e0 = (e0, false) := by
      unfold title_run
      rw [if_neg (by simp [hc])]
    rw [hr1]
    constructor
    · unfold title_run
      rw [if_neg (by simp [hc])]
    · exact hc
  · have hr1 : title_run t e0 = (some t, true) := by
      unfold title_run
      rw [if_pos (by simp [hc])]
    rw [hr1]
    constructor
    · unfold title_run
      rw [if_neg (by simp [hpr])]
    · exact hpr

/-- C7 witness: the amended idempotence at the concrete title `abc` from an
initially absent embedded title. -/
theorem title_normalizer_idempotent_spec_witness :
    (title_run "abc".data ((title_run "abc".data none).1)).2 = false ∧
    probe_title (render_title_info ((title_run "abc".data none).1)) =
      some "abc".data :=
  title_normalizer_idempotent_spec "abc".data none (by decide)

/-- C8 counterexample: a line carrying the track-number marker but no
`mkvextract:` qualifier makes `parse_tracks` raise `IndexError`
(`line.split('mkvextract:')[1]` on a one-element list) instead of
returning a track list. -/
theorem parse_tracks_crash_counterexample :
    parse_tracks "|  + Track number: 1".data = .error () := by decide

theorem splitRun_two_of_hasSub (c0 : Char) (tl : Str) :
    ∀ (l acc : Str), hasSub (c0 :: tl) l = true →
      ∃ x y ys, splitRun c0 tl l acc = x :: y :: ys := by
  intro l
  induction l with
  | nil => intro acc h; simp [hasSub] at h
  | cons c rest ih =>
    intro acc h
    simp only [hasSub, Bool.or_eq_true] at h
    by_cases hp : isPre (c0 :: tl) (c :: rest) = true
    · rw [splitRun_cons_hit c0 tl c rest acc hp]
      obtain ⟨y, ys, hys⟩ : ∃ y ys, splitRun c0 tl (rest.drop tl.length) [] = y :: ys := by
        cases hsr : splitRun c0 tl (rest.drop tl.length) [] with
        | nil => exact absurd hsr (splitRun_ne_nil _ _ _ _)
        | cons y ys => exact ⟨y, ys, rfl⟩
      exact ⟨acc.reverse, y, ys, by rw [hys]⟩
    · have hpf : isPre (c0 :: tl) (c :: rest) = false := by
        cases hib : isPre (c0 :: tl) (c :: rest)
        · rfl
        · exact absurd hib hp
      rcases h with h | h
      · exact absurd h hp
      · rw [splitRun_cons_else c0 tl c rest acc hpf]
        exact ih (c :: acc) h

theorem get1_some_of_hasSub {n l : Str} (hne : n ≠ []) (h : hasSub n l = true) :
    ∃ x, (pySplit n l).get? 1 = some x := by
  cases n with
  | nil => exact absurd rfl hne
  | cons c0 tl =>
    obtain ⟨x, y, ys, hx⟩ := splitRun_two_of_hasSub c0 tl l [] h
    exact ⟨y, by show (splitRun c0 tl l []).get? 1 = some y; rw [hx]; rfl⟩

theorem parseLine_total (st : List Track × CurTrack) (raw : Str)
    (hguard : hasSub numMarker (pyStrip raw) = true →
      hasSub extractMarker (pyStrip raw) = true) :
    ∃ st', parseLine st raw = .ok st' := by
  obtain ⟨tracks, cur⟩ := st
  by_cases h1 : hasSub numMarker (pyStrip raw) = true
  · obtain ⟨x, hx⟩ := get1_some_of_hasSub (n := extractMarker) (by decide) (hguard h1)
    refine ⟨((if cur.track_id ≠ [] then tracks ++ [cur.toTrack] else tracks),
      { (if cur.track_id ≠ [] then initCur else cur) with
          track_id := pyRstripParen (pyStrip x) }), ?_⟩
    simp only [parseLine]
    rw [if_pos h1, hx]
  · have h1f : hasSub numMarker (pyStrip raw) = false := by
      cases hb : hasSub numMarker (pyStrip raw)
      · rfl
      · exact absurd hb h1
    by_cases h2 : hasSub typeMarker (pyStrip raw) = true
    · have hcolon : (':' : Char) ∈ pyStrip raw := mem_of_hasSub h2 (by decide)
      obtain ⟨x, hx⟩ := get1_some_of_hasSub (n := [':']) (by decide)
        (hasSub_singleton hcolon)
      refine ⟨(tracks, { cur with track_type := pyStrip x }), ?_⟩
      simp only [parseLine]
      rw [if_neg (by simp [h1f]), if_pos h2, hx]
    · by_cases h3 : hasSub codecMarker (pyStrip raw) = true
      · have hcolon : (':' : Char) ∈ pyStrip raw := mem_of_hasSub h3 (by decide)
        obtain ⟨x, hx⟩ := get1_some_of_hasSub (n := [':']) (by decide)
          (hasSub_singleton hcolon)
        refine ⟨(tracks, { cur with codec := pyStrip x }), ?_⟩
        simp only [parseLine]
        rw [if_neg (by simp [h1f]), if_neg h2, if_pos h3, hx]
      · by_cases h4 : (hasSub langMarker (pyStrip raw) &&
            !hasSub ietfMarker (pyStrip raw)) = true
        · have hlm : hasSub langMarker (pyStrip raw) = true := by
            have h5 := h4
            simp only [Bool.and_eq_true] at h5
            exact h5.1
          have hcolon : (':' : Char) ∈ pyStrip raw := mem_of_hasSub hlm (by decide)
          obtain ⟨x, hx⟩ := get1_some_of_hasSub (n := [':']) (by decide)
            (hasSub_singleton hcolon)
          refine ⟨(tracks, { cur with language := pyStrip x }), ?_⟩
          simp only [parseLine]
          rw [if_neg (by simp [h1f]), if_neg h2, if_neg h3, if_pos h4, hx]
        · refine ⟨(tracks, cur), ?_⟩
          simp only [parseLine]
          rw [if_neg (by simp [h1f]), if_neg h2, if_neg h3, if_neg h4]

theorem foldlM_parseLine_total (lines : List Str)
    (h : ∀ l ∈ lines, hasSub numMarker (pyStrip l) = true →
      hasSub extractMarker (pyStrip l) = true) :
    ∀ st, ∃ out, List.foldlM parseLine st lines = .ok out := by
  induction lines with
  | nil => intro st; exact ⟨st, rfl⟩
  | cons l ls ih =>
    intro st
    obtain ⟨st', hst'⟩ := parseLine_total st l (h l (by simp))
    obtain ⟨out, hout⟩ := ih (fun x hx => h x (by simp [hx])) st'
    exact ⟨out, by rw [foldlM_parseLine_cons st st' l ls hst', hout]⟩

/-- C8 amended: the parser is total on every input whose track-number
marker lines carry the `mkvextract:` qualifier — a track-number line
without it raises `IndexError` (see the counterexample) — and lines
matching no marker are silently skipped, never an error. -/
theorem parse_tracks_totality_spec (stdout : Str)
    (hguard : ∀ l ∈ pySplit ['\n'] stdout,
      hasSub numMarker (pyStrip l) = true →
        hasSub extractMarker (pyStrip l) = true) :
    (∃ ts, parse_tracks stdout = .ok ts) ∧
    (∀ st raw, hasSub numMarker (pyStrip raw) = false →
      hasSub typeMarker (pyStrip raw) = false →
      hasSub codecMarker (pyStrip raw) = false →
      hasSub langMarker (pyStrip raw) = false →
      parseLine st raw = .ok st) := by
  constructor
  · obtain ⟨⟨T, C⟩, hout⟩ := foldlM_parseLine_total _ hguard ([], initCur)
    exact ⟨finalized T C, parse_tracks_eq stdout T C hout⟩
  · intro st raw h1 h2 h3 h4
    exact parseLine_skip st raw h1 h2 h3 (Or.inl h4)

/-- C8 witness: totality at a concrete text whose lines are a malformed
non-marker line (`hello`, silently skipped) and a well-formed type line. -/
theorem parse_tracks_totality_spec_witness :
    ∃ ts, parse_tracks "hello\n|  + Track type: audio".data = .ok ts :=
  (parse_tracks_totality_spec "hello\n|  + Track type: audio".data (by decide)).1

/-- C5: rendering any list of well-formed track blocks and parsing the
result yields exactly one `Track` per block, in source order, with the
block's id, type, language (defaulting to `undefined` when the block has no
language line) and codec; any line carrying the `IETF` qualifier never
changes the record in progress; and a track-number marker finalizes an
in-progress record with a non-empty id before starting the new one. -/
theorem parse_tracks_wellformed_blocks (bs : List RawBlock)
    (hwf : ∀ b ∈ bs, wfBlock b = true) :
    parse_tracks (joinNL ((bs.map blockLines).join)) = .ok (bs.map blockTrack) ∧
    (∀ (st : List Track × CurTrack) (raw : Str),
      hasSub numMarker (pyStrip raw) = false →
      hasSub typeMarker (pyStrip raw) = false →
      hasSub codecMarker (pyStrip raw) = false →
      hasSub ietfMarker (pyStrip raw) = true →
      parseLine st raw = .ok st) ∧
    (∀ (tracks : List Track) (cur : CurTrack) (num id : Str),
      goodDigits num = true → goodDigits id = true → cur.track_id ≠ [] →
      parseLine (tracks, cur) (numLine num id) =
        .ok (tracks ++ [cur.toTrack], { initCur with track_id := id })) := by
  refine ⟨?_, ?_, ?_⟩
  · cases bs with
    | nil => decide
    | cons b bs' =>
      have hlines_ne : (((b :: bs').map blockLines).join) ≠ [] := by
        simp [blockLines]
      have hnonl : ∀ l ∈ ((b :: bs').map blockLines).join, '\n' ∉ l := by
        intro l hl
        rw [List.mem_join] at hl
        obtain ⟨ls, hls, hl⟩ := hl
        rw [List.mem_map] at hls
        obtain ⟨b', hb', rfl⟩ := hls
        exact blockLines_no_newline b' (hwf b' hb') l hl
      have hsplit := pySplit_joinNL _ hlines_ne hnonl
      have hfold' : List.foldlM parseLine ([], initCur)
          (pySplit ['\n'] (joinNL (((b :: bs').map blockLines).join))) =
            .ok (parseBlocksEnd [] initCur (b :: bs')) := by
        rw [hsplit]
        exact foldlM_blocks (b :: bs') hwf [] initCur (Or.inl rfl)
      rw [parse_tracks_eq _ _ _ hfold']
      have hfin := parseBlocksEnd_final (b :: bs') hwf [] initCur
      rw [show finalized [] initCur = [] from rfl, List.nil_append] at hfin
      rw [show parseBlocksEnd [] initCur (b :: bs') =
        parseBlocksEnd (finalized [] initCur) (curOf b) bs' from rfl] at hfin
      rw [hfin]
  · intro st raw h1 h2 h3 h4
    exact parseLine_skip st raw h1 h2 h3 (Or.inr h4)
  · intro tracks cur num id hnum hid hcur
    rw [parseLine_numLine tracks cur num id hnum hid]
    simp [finalized, hcur]

/-- C5 witness: a single well-formed block with a language line and an
IETF-qualified language line. -/
theorem parse_tracks_wellformed_blocks_witness :
    parse_tracks (joinNL ((([⟨"1".data, "0".data, "video".data,
        "V_MPEG4/ISO/AVC".data, some "jpn".data, some "ja".data⟩] :
          List RawBlock).map blockLines).join)) =
      .ok (([⟨"1".data, "0".data, "video".data, "V_MPEG4/ISO/AVC".data,
        some "jpn".data, some "ja".data⟩] : List RawBlock).map blockTrack) :=
  (parse_tracks_wellformed_blocks
    [⟨"1".data, "0".data, "video".data, "V_MPEG4/ISO/AVC".data,
      some "jpn".data, some "ja".data⟩] (by decide)).1

theorem tailOk_facts {v : Str} (h : tailOk v = true) :
    (∃ b, v.getLast? = some b ∧ isPySpace b = false) ∧
      ∀ c ∈ v, c ≠ '|' ∧ c ≠ '\n' := by
  unfold tailOk at h
  rw [Bool.and_eq_true] at h
  obtain ⟨hend, hall⟩ := h
  constructor
  · cases hl : v.getLast? with
    | none => rw [hl] at hend; simp at hend
    | some b =>
      rw [hl] at hend
      simp only [Bool.not_eq_true'] at hend
      exact ⟨b, rfl, hend⟩
  · intro c hc
    have := (List.all_eq_true.mp hall) c hc
    simp only [Bool.and_eq_true, decide_eq_true_eq] at this
    exact this

theorem parseLine_codec_colon (tracks : List Track) (cur : CurTrack) (v1 v2 : Str)
    (h1 : goodVal v1 = true) (h2 : tailOk v2 = true) :
    parseLine (tracks, cur) (codecLine (v1 ++ ':' :: v2)) =
      .ok (tracks, { cur with codec := v1 }) := by
  obtain ⟨hstrip1, hmem1, b1, hvl1, hb1⟩ := goodVal_facts h1
  obtain ⟨⟨b2, hvl2, hb2⟩, hmem2⟩ := tailOk_facts h2
  have hv2ne : v2 ≠ [] := by rintro rfl; simp at hvl2
  have hlast : (v1 ++ ':' :: v2).getLast? = some b2 := by
    rw [List.getLast?_append_of_ne_nil _ (by simp)]
    show ((([':'] : Str)) ++ v2).getLast? = some b2
    rw [List.getLast?_append_of_ne_nil _ hv2ne]
    exact hvl2
  have hline : pyStrip (codecLine (v1 ++ ':' :: v2)) = codecLine (v1 ++ ':' :: v2) :=
    stripped_colon_line _ _ (by decide) hlast hb2
  have hbar : ∀ mk : Str, hasSub ('|' :: mk) (v1 ++ ':' :: v2) = false := by
    intro mk
    refine hasSub_false_of_head_notMem ?_
    intro hc
    rcases List.mem_append.mp hc with h | h
    · exact (hmem1 _ h).2.1 rfl
    · rcases List.mem_cons.mp h with h | h
      · exact absurd h (by decide)
      · exact (hmem2 _ h).1 rfl
  have hn1 : hasSub numMarker (codecLine (v1 ++ ':' :: v2)) = false := by
    rw [codecLine_eq]
    have hn : numMarker = '|' :: "  + Track number:".data := by decide
    rw [hn]
    exact hasSub_append_concFalse _ _ (by decide) (hbar _)
  have hn2 : hasSub typeMarker (codecLine (v1 ++ ':' :: v2)) = false := by
    rw [codecLine_eq]
    have hn : typeMarker = '|' :: "  + Track type:".data := by decide
    rw [hn]
    exact hasSub_append_concFalse _ _ (by decide) (hbar _)
  have hn3 : hasSub codecMarker (codecLine (v1 ++ ':' :: v2)) = true := by
    rw [codecLine_eq]
    exact hasSub_append_left _ _ (by decide)
  have hget : (pySplit [':'] (codecLine (v1 ++ ':' :: v2))).get? 1 = some (' ' :: v1) := by
    unfold codecLine
    have hshape : (' ' :: (v1 ++ ':' :: v2)) = (' ' :: v1) ++ ':' :: v2 := by simp
    rw [hshape]
    exact pySplit_colon_get1_mid _ _ _ (by decide)
      (fun hc => by
        rcases List.mem_cons.mp hc with h | h
        · exact absurd h (by decide)
        · exact (hmem1 _ h).1 rfl)
  simp only [parseLine, hline, hn1, hn2, hn3, hget]
  simp [hstrip1]

theorem probe_title_colon (v1 v2 : Str) (h1 : goodVal v1 = true)
    (h2 : tailOk v2 = true) :
    probe_title (titleLine (v1 ++ ':' :: v2)) = some v1 := by
  obtain ⟨hstrip1, hmem1, b1, hvl1, hb1⟩ := goodVal_facts h1
  obtain ⟨⟨b2, hvl2, hb2⟩, hmem2⟩ := tailOk_facts h2
  have hnl : pySplit ['\n'] (titleLine (v1 ++ ':' :: v2)) =
      [titleLine (v1 ++ ':' :: v2)] := by
    refine pySplit_single_no _ ?_
    unfold titleLine
    refine no_newline_colon_line _ _ (by decide) ?_
    intro hc
    rcases List.mem_append.mp hc with h | h
    · exact (hmem1 _ h).2.2 rfl
    · rcases List.mem_cons.mp h with h | h
      · exact absurd h (by decide)
      · exact (hmem2 _ h).2 rfl
  have hts : hasSub titleMarker (titleLine (v1 ++ ':' :: v2)) = true := by
    rw [titleLine_eq]
    exact hasSub_append_left _ _ (by decide)
  have hget : (pySplit [':'] (titleLine (v1 ++ ':' :: v2))).get? 1 =
      some (' ' :: v1) := by
    unfold titleLine
    have hshape : (' ' :: (v1 ++ ':' :: v2)) = (' ' :: v1) ++ ':' :: v2 := by simp
    rw [hshape]
    exact pySplit_colon_get1_mid _ _ _ (by decide)
      (fun hc => by
        rcases List.mem_cons.mp hc with h | h
        · exact absurd h (by decide)
        · exact (hmem1 _ h).1 rfl)
  unfold probe_title
  rw [hnl]
  unfold probe_title_lines
  rw [if_pos hts, hget]
  simp [hstrip1]

theorem rstrip_extract_parens (id : Str) (k : Nat) (hid : goodDigits id = true) :
    pyRstripParen (pyStrip (' ' :: (id ++ List.replicate (k + 1) ')'))) = id := by
  obtain ⟨hine, hid'⟩ := goodDigits_facts hid
  obtain ⟨c, t, rfl⟩ : ∃ c t, id = c :: t := by
    cases id with
    | nil => exact absurd rfl hine
    | cons c t => exact ⟨c, t, rfl⟩
  have hc : c ∈ digitChars := hid' c (by simp)
  have hrep : (List.replicate (k + 1) (')' : Char)).getLast? = some ')' := by
    rw [List.replicate_succ']
    exact List.getLast?_concat _
  have hstrip : pyStrip ((c :: t) ++ List.replicate (k + 1) ')') =
      (c :: t) ++ List.replicate (k + 1) ')' := by
    refine pyStrip_eq_self (a := c) (b := ')') (by simp)
      ((digit_facts hc).2.2.2.2.2.2) ?_ (by decide)
    rw [List.getLast?_append_of_ne_nil _ (by simp)]
    exact hrep
  rw [pyStrip_cons_space, hstrip]
  obtain ⟨d, hd⟩ : ∃ d, (c :: t).getLast? = some d := by
    cases hgl : (c :: t).getLast? with
    | none => rw [List.getLast?_eq_none_iff] at hgl; simp at hgl
    | some d => exact ⟨d, rfl⟩
  have hdmem : d ∈ c :: t := List.mem_of_mem_getLast? (by rw [hd]; rfl)
  exact pyRstripParen_append (k + 1) hd
    (beq_eq_false_iff_ne.mpr (digit_facts (hid' d hdmem)).2.2.2.1)

/-- C6 counterexample: for the title-marker line `|  + Title: a:b` the
probe extracts `a` — the text between the first and second colons — not
the whole text `a:b` after the first colon as the claim states. -/
theorem colon_value_counterexample :
    probe_title "|  + Title: a:b".data = some "a".data ∧
    some "a".data ≠ some "a:b".data := ⟨by decide, by decide⟩

/-- C6 amended: a marker-line field value is the whitespace-trimmed text
between the first colon and the second colon of the line (the whole
remainder when there is no second colon, as in the round-trip theorem);
the track id is the text after the `mkvextract:` qualifier, trimmed, with
every trailing closing parenthesis removed. -/
theorem field_extraction_spec :
    (∀ (tracks : List Track) (cur : CurTrack) (v1 v2 : Str),
      goodVal v1 = true → tailOk v2 = true →
      parseLine (tracks, cur) (codecLine (v1 ++ ':' :: v2)) =
        .ok (tracks, { cur with codec := v1 })) ∧
    (∀ v1 v2 : Str, goodVal v1 = true → tailOk v2 = true →
      probe_title (titleLine (v1 ++ ':' :: v2)) = some v1) ∧
    (∀ (id : Str) (k : Nat), goodDigits id = true →
      pyRstripParen (pyStrip (' ' :: (id ++ List.replicate (k + 1) ')'))) = id) :=
  ⟨parseLine_codec_colon, probe_title_colon,
    fun id k hid => rstrip_extract_parens id k hid⟩

/-- C6 witness: the amended extraction at concrete values — codec value
`a:b` stores `a`; title value `a:b` probes as `a`; track-id text
` 7))` yields `7`. -/
theorem field_extraction_spec_witness :
    parseLine ([], initCur) (codecLine ("a".data ++ ':' :: "b".data)) =
      .ok ([], { initCur with codec := "a".data }) ∧
    probe_title (titleLine ("a".data ++ ':' :: "b".data)) = some "a".data ∧
    pyRstripParen (pyStrip (' ' :: ("7".data ++ List.replicate 2 ')'))) = "7".data :=
  ⟨field_extraction_spec.1 [] initCur "a".data "b".data (by decide) (by decide),
   field_extraction_spec.2.1 "a".data "b".data (by decide) (by decide),
   field_extraction_spec.2.2 "7".data 1 (by decide)⟩

/-! ### Dry-run versus real-run log correspondence -/

theorem map_toIntent_idlist (l : List Track) (f : Track → Msg)
    (h : ∀ t, toIntent (f t) = f t) : (l.map f).map toIntent = l.map f := by
  induction l with
  | nil => rfl
  | cons t ts ih => simp [h, ih]

theorem toIntent_comp_foundKeep :
    (toIntent ∘ fun t : Track => Msg.foundKeep t.track_id) =
      fun t : Track => Msg.foundKeep t.track_id := funext fun t => rfl

theorem toIntent_comp_foundRemove :
    (toIntent ∘ fun t : Track => Msg.foundRemove t.track_id) =
      fun t : Track => Msg.foundRemove t.track_id := funext fun t => rfl

theorem audio_step_tense (env : Env) (keep : Str) (tracks : List Track)
    (file : Str) (std stw : St)
    (hm : env.merge_ok = true)
    (hg : size_gate stw.content.length env.remux_content.length = true)
    (hR : std.log = stw.log.map toIntent) :
    (audio_step env true keep tracks file std).2 = none ∧
    (audio_step env false keep tracks file stw).2 = none ∧
    (audio_step env true keep tracks file std).1.log =
      ((audio_step env false keep tracks file stw).1.log).map toIntent := by
  by_cases hnon : (tracks.filter (fun t => t.type = "audio".data)).filter
      (fun t => t.language ≠ keep) ≠ []
  · by_cases htar : (tracks.filter (fun t => t.type = "audio".data)).filter
        (fun t => t.language = keep) = []
    · have hd : audio_step env true keep tracks file std =
          ((((std.say .analyzing).sayAll
            (((tracks.filter (fun t => t.type = "audio".data)).filter
              (fun t => t.language = keep)).map (fun t => .foundKeep t.track_id))).sayAll
            (((tracks.filter (fun t => t.type = "audio".data)).filter
              (fun t => t.language ≠ keep)).map (fun t => .foundRemove t.track_id))).say .warnNoTarget, none) := by
        simp only [audio_step]
        rw [if_pos hnon, if_pos htar]
      have hw : audio_step env false keep tracks file stw =
          ((((stw.say .analyzing).sayAll
            (((tracks.filter (fun t => t.type = "audio".data)).filter
              (fun t => t.language = keep)).map (fun t => .foundKeep t.track_id))).sayAll
            (((tracks.filter (fun t => t.type = "audio".data)).filter
              (fun t => t.language ≠ keep)).map (fun t => .foundRemove t.track_id))).say .warnNoTarget, none) := by
        simp only [audio_step]
        rw [if_pos hnon, if_pos htar]
      rw [hd, hw]
      simp [St.say, St.sayAll, hR, toIntent, toIntent_comp_foundKeep, toIntent_comp_foundRemove]
    · have hd : audio_step env true keep tracks file std =
          ((((std.say .analyzing).sayAll
            (((tracks.filter (fun t => t.type = "audio".data)).filter
              (fun t => t.language = keep)).map (fun t => .foundKeep t.track_id))).sayAll
            (((tracks.filter (fun t => t.type = "audio".data)).filter
              (fun t => t.language ≠ keep)).map (fun t => .foundRemove t.track_id))).say .wouldKeepOnly, none) := by
        simp only [audio_step]
        rw [if_pos hnon, if_neg htar]
        simp
      have hw : (audio_step env false keep tracks file stw).2 = none ∧
          (audio_step env false keep tracks file stw).1.log =
            stw.log ++ (.analyzing ::
              (((tracks.filter (fun t => t.type = "audio".data)).filter
                (fun t => t.language = keep)).map (fun t => .foundKeep t.track_id) ++
               (((tracks.filter (fun t => t.type = "audio".data)).filter
                (fun t => t.language ≠ keep)).map (fun t => .foundRemove t.track_id) ++
                [.keptOnly]))) := by
        simp only [audio_step]
        rw [if_pos hnon, if_neg htar]
        simp [hm, St.say, St.sayAll, St.runCmd]
        rw [if_pos (by simpa using hg)]
        simp
      rw [hd]
      refine ⟨rfl, hw.1, ?_⟩
      rw [hw.2]
      simp [St.say, St.sayAll, hR, toIntent, toIntent_comp_foundKeep, toIntent_comp_foundRemove]
  · have hd : audio_step env true keep tracks file std =
        ((((std.say .analyzing).sayAll
            (((tracks.filter (fun t => t.type = "audio".data)).filter
              (fun t => t.language = keep)).map (fun t => .foundKeep t.track_id))).sayAll
            (((tracks.filter (fun t => t.type = "audio".data)).filter
              (fun t => t.language ≠ keep)).map (fun t => .foundRemove t.track_id))).say .noAudioChanges, none) := by
      simp only [audio_step]
      rw [if_neg (by simpa using hnon)]
    have hw : audio_step env false keep tracks file stw =
        ((((stw.say .analyzing).sayAll
            (((tracks.filter (fun t => t.type = "audio".data)).filter
              (fun t => t.language = keep)).map (fun t => .foundKeep t.track_id))).sayAll
            (((tracks.filter (fun t => t.type = "audio".data)).filter
              (fun t => t.language ≠ keep)).map (fun t => .foundRemove t.track_id))).say .noAudioChanges, none) := by
      simp only [audio_step]
      rw [if_neg (by simpa using hnon)]
    rw [hd, hw]
    simp [St.say, St.sayAll, hR, toIntent, toIntent_comp_foundKeep, toIntent_comp_foundRemove]

theorem subtitle_step_tense (env : Env) (tracks : List Track)
    (file : Str) (std stw : St)
    (hn : env.nosubs_ok = true)
    (hR : std.log = stw.log.map toIntent) :
    (subtitle_step env true tracks file std).2 = none ∧
    (subtitle_step env false tracks file stw).2 = none ∧
    (subtitle_step env true tracks file std).1.log =
      ((subtitle_step env false tracks file stw).1.log).map toIntent := by
  by_cases hsub : tracks.filter (fun t => t.type = "subtitles".data) = []
  · have hd : subtitle_step env true tracks file std = (std.say .noSubtitles, none) := by
      simp only [subtitle_step]
      rw [if_pos hsub]
    have hw : subtitle_step env false tracks file stw = (stw.say .noSubtitles, none) := by
      simp only [subtitle_step]
      rw [if_pos hsub]
    rw [hd, hw]
    simp [St.say, hR, toIntent]
  · have hd : subtitle_step env true tracks file std =
        ((std.say .subtitlesFound).say .wouldRemoveSubs, none) := by
      simp only [subtitle_step]
      rw [if_neg hsub]
      simp
    have hw : subtitle_step env false tracks file stw =
        (({ (stw.say .subtitlesFound).runCmd
            (.mkvmerge_nosubs (py_splitext_root file ++ "_no_subtitles.mkv".data) file)
            with content := env.nosubs_content }).say .subtitlesRemoved, none) := by
      simp only [subtitle_step]
      rw [if_neg hsub]
      simp [hn]
    rw [hd, hw]
    simp [St.say, St.runCmd, hR, toIntent]

theorem title_step_tense (env : Env) (file : Str) (std stw : St)
    (hp : env.propedit_ok = true)
    (hR : std.log = stw.log.map toIntent) :
    (title_step env true file std).2 = none ∧
    (title_step env false file stw).2 = none ∧
    (title_step env true file std).1.log =
      ((title_step env false file stw).1.log).map toIntent := by
  by_cases ht : probe_title env.title_info_out ≠ some (py_splitext_root (py_basename file))
  · have hd : title_step env true file std =
        ((std.runCmd (.mkvinfo file)).say
          (.wouldSetTitle (py_splitext_root (py_basename file))), none) := by
      simp only [title_step]
      rw [if_pos ht]
      simp
    have hw : title_step env false file stw =
        (({ (stw.runCmd (.mkvinfo file)).runCmd
              (.mkvpropedit_title file (py_splitext_root (py_basename file)))
            with content := env.propedit_content }).say
          (.setTitleMsg (py_splitext_root (py_basename file))), none) := by
      simp only [title_step]
      rw [if_pos ht]
      simp [hp]
    rw [hd, hw]
    simp [St.say, St.runCmd, hR, toIntent]
  · have hd : title_step env true file std =
        ((std.runCmd (.mkvinfo file)).say .titleMatches, none) := by
      simp only [title_step]
      rw [if_neg ht]
    have hw : title_step env false file stw =
        ((stw.runCmd (.mkvinfo file)).say .titleMatches, none) := by
      simp only [title_step]
      rw [if_neg ht]
    rw [hd, hw]
    simp [St.say, St.runCmd, hR, toIntent]

theorem audio_step_dry_exit (env : Env) (keep : Str) (tracks : List Track)
    (file : Str) (st : St) : (audio_step env true keep tracks file st).2 = none := by
  simp only [audio_step]
  split_ifs <;> rfl

theorem audio_step_dry_content (env : Env) (keep : Str) (tracks : List Track)
    (file : Str) (st : St) :
    (audio_step env true keep tracks file st).1.content = st.content := by
  simp only [audio_step]
  split_ifs <;> simp [St.say, St.sayAll]

theorem audio_step_dry_temp (env : Env) (keep : Str) (tracks : List Track)
    (file : Str) (st : St) :
    (audio_step env true keep tracks file st).1.temp = st.temp := by
  simp only [audio_step]
  split_ifs <;> simp [St.say, St.sayAll]

theorem audio_step_dry_cmds (env : Env) (keep : Str) (tracks : List Track)
    (file : Str) (st : St) :
    (audio_step env true keep tracks file st).1.cmds = st.cmds := by
  simp only [audio_step]
  split_ifs <;> simp [St.say, St.sayAll]

theorem subtitle_step_dry_exit (env : Env) (tracks : List Track)
    (file : Str) (st : St) : (subtitle_step env true tracks file st).2 = none := by
  simp only [subtitle_step]
  split_ifs <;> rfl

theorem subtitle_step_dry_content (env : Env) (tracks : List Track)
    (file : Str) (st : St) :
    (subtitle_step env true tracks file st).1.content = st.content := by
  simp only [subtitle_step]
  split_ifs <;> simp [St.say]

theorem subtitle_step_dry_temp (env : Env) (tracks : List Track)
    (file : Str) (st : St) :
    (subtitle_step env true tracks file st).1.temp = st.temp := by
  simp only [subtitle_step]
  split_ifs <;> simp [St.say]

theorem subtitle_step_dry_cmds (env : Env) (tracks : List Track)
    (file : Str) (st : St) :
    (subtitle_step env true tracks file st).1.cmds = st.cmds := by
  simp only [subtitle_step]
  split_ifs <;> simp [St.say]

theorem title_step_dry_exit (env : Env) (file : Str) (st : St) :
    (title_step env true file st).2 = none := by
  simp only [title_step]
  split_ifs <;> rfl

theorem title_step_dry_content (env : Env) (file : Str) (st : St) :
    (title_step env true file st).1.content = st.content := by
  simp only [title_step]
  split_ifs <;> simp [St.say, St.runCmd]

theorem title_step_dry_temp (env : Env) (file : Str) (st : St) :
    (title_step env true file st).1.temp = st.temp := by
  simp only [title_step]
  split_ifs <;> simp [St.say, St.runCmd]

theorem title_step_dry_cmds (env : Env) (file : Str) (st : St) :
    (title_step env true file st).1.cmds = st.cmds ++ [.mkvinfo file] := by
  simp only [title_step]
  split_ifs <;> simp [St.say, St.runCmd]

theorem pipeline_steps_dry_frame (env : Env) (kl : Option Str) (ds : Bool)
    (tracks : List Track) (file : Str) (st : St) :
    (pipeline_steps env ⟨kl, ds, true⟩ tracks file st).1.content = st.content ∧
    (pipeline_steps env ⟨kl, ds, true⟩ tracks file st).1.temp = st.temp ∧
    (pipeline_steps env ⟨kl, ds, true⟩ tracks file st).1.cmds =
      st.cmds ++ [.mkvinfo file] := by
  simp only [pipeline_steps]
  cases kl <;> cases ds <;>
    simp [audio_step_dry_exit, audio_step_dry_content, audio_step_dry_temp,
      audio_step_dry_cmds, subtitle_step_dry_exit, subtitle_step_dry_content,
      subtitle_step_dry_temp, subtitle_step_dry_cmds, title_step_dry_exit,
      title_step_dry_content, title_step_dry_temp, title_step_dry_cmds, St.say]

theorem process_mkv_file_dry_frame (env : Env) (kl : Option Str) (ds : Bool)
    (file : Str) (c0 : List Nat) :
    (process_mkv_file env ⟨kl, ds, true⟩ file c0).1.content = c0 ∧
    (process_mkv_file env ⟨kl, ds, true⟩ file c0).1.temp = none ∧
    (∀ c ∈ (process_mkv_file env ⟨kl, ds, true⟩ file c0).1.cmds,
      c.isMutation = false) := by
  simp only [process_mkv_file]
  cases hex : env.file_exists with
  | false => simp [St.say]
  | true =>
    rw [if_neg (by simp [hex])]
    cases hpt : parse_tracks env.info_out with
    | error e => simp [hpt, St.say, St.runCmd, Cmd.isMutation]
    | ok tracks =>
      simp only [hpt]
      refine ⟨?_, ?_, ?_⟩
      · rw [(pipeline_steps_dry_frame env kl ds tracks file _).1]
        simp [St.say, St.sayAll, St.runCmd]
      · rw [(pipeline_steps_dry_frame env kl ds tracks file _).2.1]
        simp [St.say, St.sayAll, St.runCmd]
      · intro c hc
        rw [(pipeline_steps_dry_frame env kl ds tracks file _).2.2] at hc
        simp [St.say, St.sayAll, St.runCmd] at hc
        rcases hc with rfl | rfl <;> rfl

theorem toIntent_comp_trackLine :
    (toIntent ∘ fun t : Track => Msg.trackLine t) =
      fun t : Track => Msg.trackLine t := funext fun t => rfl

theorem pipeline_steps_tense (env : Env) (kl : Option Str) (ds : Bool)
    (tracks : List Track) (file : Str) (std stw : St)
    (hm : env.merge_ok = true) (hn : env.nosubs_ok = true)
    (hp : env.propedit_ok = true)
    (hg : size_gate stw.content.length env.remux_content.length = true)
    (hR : std.log = stw.log.map toIntent) :
    (pipeline_steps env ⟨kl, ds, true⟩ tracks file std).1.log =
      ((pipeline_steps env ⟨kl, ds, false⟩ tracks file stw).1.log).map toIntent := by
  cases kl with
  | none =>
    simp only [pipeline_steps]
    cases ds with
    | false =>
      obtain ⟨td, tw, tl⟩ := title_step_tense env file std stw hp hR
      simp [td, tw, tl, St.say, List.map_append, toIntent]
    | true =>
      obtain ⟨sd, sw, sl⟩ := subtitle_step_tense env tracks file std stw hn hR
      obtain ⟨td, tw, tl⟩ := title_step_tense env file _ _ hp sl
      simp [sd, sw, td, tw, tl, St.say, List.map_append, toIntent]
  | some keep =>
    obtain ⟨ad, aw, al⟩ := audio_step_tense env keep tracks file std stw hm hg hR
    simp only [pipeline_steps]
    cases ds with
    | false =>
      obtain ⟨td, tw, tl⟩ := title_step_tense env file _ _ hp al
      simp [ad, aw, td, tw, tl, St.say, List.map_append, toIntent]
    | true =>
      obtain ⟨sd, sw, sl⟩ := subtitle_step_tense env tracks file _ _ hn al
      obtain ⟨td, tw, tl⟩ := title_step_tense env file _ _ hp sl
      simp [ad, aw, sd, sw, td, tw, tl, St.say, List.map_append, toIntent]

theorem process_mkv_file_tense (env : Env) (kl : Option Str) (ds : Bool)
    (file : Str) (c0 : List Nat)
    (hm : env.merge_ok = true) (hn : env.nosubs_ok = true)
    (hp : env.propedit_ok = true)
    (hg : size_gate c0.length env.remux_content.length = true) :
    (process_mkv_file env ⟨kl, ds, true⟩ file c0).1.log =
      ((process_mkv_file env ⟨kl, ds, false⟩ file c0).1.log).map toIntent := by
  simp only [process_mkv_file]
  cases hex : env.file_exists with
  | false => simp [St.say, toIntent]
  | true =>
    rw [if_neg (by simp [hex]), if_neg (by simp [hex])]
    cases hpt : parse_tracks env.info_out with
    | error e => simp [hpt, St.say, St.runCmd, toIntent]
    | ok tracks =>
      simp only [hpt]
      refine pipeline_steps_tense env kl ds tracks file _ _ hm hn hp ?_ ?_
      · simpa [St.say, St.sayAll, St.runCmd] using hg
      · simp [St.say, St.sayAll, St.runCmd, List.map_append, List.map_map,
          toIntent, toIntent_comp_trackLine]

theorem stitcher_dry_no_ffmpeg (senv : SEnv) (res : Str) (fps : Nat)
    (sb : SortBy) : (concatenate_and_encode senv res fps sb true).ran_ffmpeg = false := by
  cases htool : senv.tools_ok with
  | false => simp [concatenate_and_encode, htool]
  | true =>
    cases hr : get_resolution_and_fps res fps with
    | error e => simp [concatenate_and_encode, htool, hr]
    | ok whf =>
      obtain ⟨w, h, f⟩ := whf
      simp only [concatenate_and_encode, htool, hr]
      split_ifs <;> rfl

theorem stitcher_tense (senv : SEnv) (res : Str) (fps : Nat) (sb : SortBy)
    (henc : senv.encode_ok = true) :
    (concatenate_and_encode senv res fps sb true).log =
      ((concatenate_and_encode senv res fps sb false).log).map sToIntent := by
  cases htool : senv.tools_ok with
  | false => simp [concatenate_and_encode, htool, sToIntent]
  | true =>
    cases hr : get_resolution_and_fps res fps with
    | error e => simp [concatenate_and_encode, htool, hr]
    | ok whf =>
      obtain ⟨w, h, f⟩ := whf
      simp only [concatenate_and_encode, htool, hr]
      split_ifs <;> simp [henc, sToIntent] <;> simp_all

/-- C9 counterexample: on a concrete input where the title differs from
the filename, the dry run prints the `Would set the title ...` message
where the real run prints `Set the title ...` — the two runs' logging is
not identical, contrary to the claim. -/
theorem dry_run_log_counterexample :
    (process_mkv_file ⟨true, true, [], true, [], true, [], [], true, []⟩
        ⟨none, false, true⟩ "a.mkv".data [0]).1.log ≠
    (process_mkv_file ⟨true, true, [], true, [], true, [], [], true, []⟩
        ⟨none, false, false⟩ "a.mkv".data [0]).1.log := by decide

/-- C9 amended: a dry run leaves the file bytes unchanged, leaves no temp
file, and issues no external mutation command, for every environment and
option set; and when the real run completes without aborting (external
commands succeed and the size gate passes) the dry-run log equals the real
run's log with each performed-mutation message replaced by its dry-run
intent phrasing — but not literally identical (see the counterexample).
The stitcher likewise never runs ffmpeg in dry-run mode and its dry-run
log is the tense-mapped encode log. -/
theorem dry_run_frame_spec :
    (∀ (env : Env) (kl : Option Str) (ds : Bool) (file : Str) (c0 : List Nat),
      (process_mkv_file env ⟨kl, ds, true⟩ file c0).1.content = c0 ∧
      (process_mkv_file env ⟨kl, ds, true⟩ file c0).1.temp = none ∧
      (∀ c ∈ (process_mkv_file env ⟨kl, ds, true⟩ file c0).1.cmds,
        c.isMutation = false)) ∧
    (∀ (env : Env) (kl : Option Str) (ds : Bool) (file : Str) (c0 : List Nat),
      env.merge_ok = true → env.nosubs_ok = true → env.propedit_ok = true →
      size_gate c0.length env.remux_content.length = true →
      (process_mkv_file env ⟨kl, ds, true⟩ file c0).1.log =
        ((process_mkv_file env ⟨kl, ds, false⟩ file c0).1.log).map toIntent) ∧
    (∀ (senv : SEnv) (res : Str) (fps : Nat) (sb : SortBy),
      (concatenate_and_encode senv res fps sb true).ran_ffmpeg = false ∧
      (senv.encode_ok = true →
        (concatenate_and_encode senv res fps sb true).log =
          ((concatenate_and_encode senv res fps sb false).log).map sToIntent)) :=
  ⟨process_mkv_file_dry_frame,
   fun env kl ds file c0 hm hn hp hg =>
     process_mkv_file_tense env kl ds file c0 hm hn hp hg,
   fun senv res fps sb =>
     ⟨stitcher_dry_no_ffmpeg senv res fps sb,
      fun henc => stitcher_tense senv res fps sb henc⟩⟩

/-- C9 witness: the frame and the tense correspondence at a concrete
environment whose real run mutates the title. -/
theorem dry_run_frame_spec_witness :
    (process_mkv_file ⟨true, true, [], true, [0], true, [], [], true, []⟩
        ⟨none, false, true⟩ "a.mkv".data [0]).1.content = [0] ∧
    (process_mkv_file ⟨true, true, [], true, [0], true, [], [], true, []⟩
        ⟨none, false, true⟩ "a.mkv".data [0]).1.log =
      ((process_mkv_file ⟨true, true, [], true, [0], true, [], [], true, []⟩
        ⟨none, false, false⟩ "a.mkv".data [0]).1.log).map toIntent :=
  ⟨(dry_run_frame_spec.1 ⟨true, true, [], true, [0], true, [], [], true, []⟩
      none false "a.mkv".data [0]).1,
   dry_run_frame_spec.2.1 ⟨true, true, [], true, [0], true, [], [], true, []⟩
     none false "a.mkv".data [0] rfl rfl rfl (by decide)⟩

end VideoForge
